import Mathlib

/-!
Verification of the Pipy conversational agent runtime against its
natural-language specification.

The development shallowly embeds the Python sources:
  pi_ai/providers/simple_options.py   (thinking budgets)
  pi_ai/providers/anthropic.py        (cache retention, streaming JSON)
  pi_ai/providers/openai.py           (streaming JSON)
  pi_ai/streaming.py, pi_agent/events.py (event stream primitives)
  pi_ai/transform.py                  (cross-provider transform)
  pi_agent/loop.py                    (agent loop)
  pi_session/manager.py               (session log)

Python dicts/objects with a string discriminator become Lean structures
carrying that string; Python string comparisons are kept verbatim, including
their exact literals, because several claims turn on them.  Fallible code
returns Except/Option; async code is modelled by explicit state passing and
by scripts (lists) of the values successive awaited calls would produce.
-/

namespace Pipy

/-! ## pi_ai/providers/simple_options.py -/

/-- `_DEFAULT_THINKING_BUDGETS` from simple_options.py. -/
def defaultThinkingBudgets : List (String × Int) :=
  [("minimal", 1024), ("low", 2048), ("medium", 8192), ("high", 16384)]

/-- `clamp_reasoning`: `"high" if effort == "xhigh" else effort`. -/
def clampReasoning (effort : String) : String :=
  if effort = "xhigh" then "high" else effort

/-- Python `dict.get(key, default)` on an association list built by insertion
order; a later binding for the same key overwrites an earlier one, so lookup
scans from the right. -/
def dictGet (assoc : List (String × Int)) (key : String) (dflt : Int) : Int :=
  match assoc.reverse.find? (fun kv => kv.1 = key) with
  | some kv => kv.2
  | none => dflt

/-- `{**_DEFAULT_THINKING_BUDGETS, **(custom_budgets or {})}`: custom entries
overwrite the defaults. -/
def mergedBudgets (custom : Option (List (String × Int))) : List (String × Int) :=
  defaultThinkingBudgets ++ (custom.getD [])

/-- `adjust_max_tokens_for_thinking` from simple_options.py, line by line:
merge the budget tables, clamp the level, look the budget up (default 0),
cap `base + budget` at the model maximum, and if the capped total does not
exceed the budget, shrink the budget to `max 0 (max_tokens - 1024)`.
Returns `(max_tokens, thinking_budget)`. -/
def adjustMaxTokensForThinking (baseMaxTokens modelMaxTokens : Int)
    (reasoningLevel : String) (customBudgets : Option (List (String × Int))) :
    Int × Int :=
  let budgets := mergedBudgets customBudgets
  let level := clampReasoning reasoningLevel
  if level = "" then (baseMaxTokens, 0)
  else
    let thinkingBudget := dictGet budgets level 0
    let maxTokens := min (baseMaxTokens + thinkingBudget) modelMaxTokens
    let minOutputTokens : Int := 1024
    let thinkingBudget' :=
      if maxTokens ≤ thinkingBudget then max 0 (maxTokens - minOutputTokens)
      else thinkingBudget
    (maxTokens, thinkingBudget')

/-! ## pi_ai/providers/anthropic.py: cache retention -/

/-- Substring test on character lists, used for the `"api.anthropic.com" in
base_url` check. -/
def containsSub (needle hay : List Char) : Bool :=
  match hay with
  | [] => needle.isEmpty
  | _ :: t => needle.isPrefixOf hay || containsSub needle t

/-- `_resolve_cache_retention`: a truthy caller value wins; otherwise the
environment variable `PI_CACHE_RETENTION` is consulted, but only the exact
value `"long"` is recognised; everything else falls back to `"short"`. -/
def resolveCacheRetention (cacheRetention : Option String) (env : Option String) :
    String :=
  match cacheRetention with
  | some c =>
    if c ≠ "" then c
    else if env = some "long" then "long" else "short"
  | none =>
    if env = some "long" then "long" else "short"

/-- A `cache_control` dict: `{"type": ..., "ttl"?: ...}`. -/
structure CacheControl where
  type : String
  ttl : Option String
deriving DecidableEq, Repr

/-- `_get_cache_control`: resolve retention; `"none"` suppresses the marker;
otherwise an `{type: ephemeral}` marker is produced, with `ttl: "1h"` only
for long retention on the canonical Anthropic host. -/
def getCacheControl (baseUrl : String) (cacheRetention : Option String)
    (env : Option String) : String × Option CacheControl :=
  let retention := resolveCacheRetention cacheRetention env
  if retention = "none" then (retention, none)
  else
    let ttl :=
      if retention = "long" && containsSub "api.anthropic.com".toList baseUrl.toList
      then some "1h" else none
    (retention, some { type := "ephemeral", ttl := ttl })

/-! ## Event stream primitives

`AssistantMessageEventStream` (pi_ai/streaming.py) and `AgentEventStream`
(pi_agent/events.py).  Both wrap an asyncio queue with a one-shot terminal:
`_result : Option α`, and an `asyncio.Event` `_result_event` that `result()`
awaits.  The queue is kept as a list (sentinel = `none`); awaiting
`_result_event.wait()` is modelled by `ResultOutcome`: if the event was never
set, the awaiter stays blocked. -/

/-- A provider event as `push` inspects it: its `type` string and the values
`event.get("message")` / `event.get("error")` would return. -/
structure ProviderEvent (α : Type) where
  type : String
  message : Option α := none
  error : Option α := none

/-- State of an `AssistantMessageEventStream`. -/
structure ProviderStream (α : Type) where
  queue : List (Option (ProviderEvent α)) := []
  done : Bool := false
  result : Option α := none
  resultEventSet : Bool := false

/-- `_set_result`: first call wins; sets `_result_event`. -/
def ProviderStream.setResult {α : Type} (s : ProviderStream α) (m : α) :
    ProviderStream α :=
  if s.result.isNone then { s with result := some m, resultEventSet := true }
  else s

/-- `AssistantMessageEventStream.push`: no-op after `end`; a `done`/`error`
event carrying `message or error` sets the result; the event is enqueued. -/
def ProviderStream.push {α : Type} (s : ProviderStream α) (e : ProviderEvent α) :
    ProviderStream α :=
  if s.done then s
  else
    let s1 :=
      if e.type = "done" ∨ e.type = "error" then
        match e.message.or e.error with
        | some m => s.setResult m
        | none => s
      else s
    { s1 with queue := s1.queue ++ [some e] }

/-- `AssistantMessageEventStream.end`: an explicit terminal sets the result;
then, if not yet done, mark done and enqueue the sentinel.  Note that ending
with no terminal never touches `_result_event`. -/
def ProviderStream.endStream {α : Type} (s : ProviderStream α) (r : Option α) :
    ProviderStream α :=
  let s1 := match r with
    | some m => s.setResult m
    | none => s
  if s1.done then s1
  else { s1 with done := true, queue := s1.queue ++ [none] }

/-- What an awaiter of `result()` observes on a final stream state.
`await self._result_event.wait()` returns only if the event is set; then a
`none` result raises, a `some` result is returned. -/
inductive ResultOutcome (α : Type) where
  | blocked
  | raised (msg : String)
  | value (m : α)
deriving DecidableEq

/-- `result()` of `AssistantMessageEventStream` (pi_ai/streaming.py lines
37-41): wait on `_result_event`, then raise if `_result` is `None`. -/
def ProviderStream.resultOutcome {α : Type} (s : ProviderStream α) :
    ResultOutcome α :=
  if s.resultEventSet then
    match s.result with
    | none => .raised "Stream finished without a result message."
    | some m => .value m
  else .blocked

/-- State of an `AgentEventStream` (pi_agent/events.py).  Its `push` never
inspects events, so the queue elements are irrelevant here and only their
count is kept. -/
structure AgentStream (α : Type) where
  queueLen : Nat := 0
  done : Bool := false
  result : Option (List α) := none
  resultEventSet : Bool := false

/-- `AgentEventStream.push`: no-op after `end`, else enqueue. -/
def AgentStream.push {α : Type} (s : AgentStream α) : AgentStream α :=
  if s.done then s else { s with queueLen := s.queueLen + 1 }

/-- `AgentEventStream.end`: a non-`None` messages argument sets the result
and the event; then, if not yet done, mark done and enqueue the sentinel. -/
def AgentStream.endStream {α : Type} (s : AgentStream α)
    (messages : Option (List α)) : AgentStream α :=
  let s1 := match messages with
    | some ms => { s with result := some ms, resultEventSet := true }
    | none => s
  if s1.done then s1
  else { s1 with done := true, queueLen := s1.queueLen + 1 }

/-- `result()` of `AgentEventStream` (pi_agent/events.py lines 31-35). -/
def AgentStream.resultOutcome {α : Type} (s : AgentStream α) :
    ResultOutcome (List α) :=
  if s.resultEventSet then
    match s.result with
    | none => .raised "Stream finished without result messages."
    | some ms => .value ms
  else .blocked

/-! ## pi_ai/types.py: content blocks and messages

Python content blocks are pydantic objects whose `type` field is a string
fixed by the class (`"text"`, `"thinking"`, `"tool_call"`); messages carry a
`role` string fixed the same way (`"user"`, `"assistant"`, `"tool_result"`).
Both are modelled as one structure carrying the discriminator string plus
the union of the payload fields, exactly as duck-typed Python code sees
them.  `arguments` (a JSON object) is kept opaque as its source text, and
timestamps are elided: no claim inspects either. -/

structure Block where
  type : String
  text : String := ""
  thinking : String := ""
  thinkingSignature : Option String := none
  id : String := ""
  name : String := ""
  arguments : String := ""
  thoughtSignature : Option String := none
deriving DecidableEq, Repr

/-- `TextContent(text=...)`: `type` is the literal `"text"`. -/
def mkTextContent (t : String) : Block := { type := "text", text := t }

/-- `ThinkingContent(...)`: `type` is the literal `"thinking"`. -/
def mkThinkingContent (t : String) (sig : Option String) : Block :=
  { type := "thinking", thinking := t, thinkingSignature := sig }

/-- `ToolCall(...)`: `type` is the literal `"tool_call"` (pi_ai/types.py
line 110). -/
def mkToolCall (id name args : String) (thoughtSig : Option String) : Block :=
  { type := "tool_call", id := id, name := name, arguments := args,
    thoughtSignature := thoughtSig }

structure PyMsg where
  role : String
  content : List Block := []
  api : String := ""
  provider : String := ""
  model : String := ""
  stopReason : String := "stop"
  errorMessage : Option String := none
  toolCallId : String := ""
  toolName : String := ""
  isError : Bool := false
deriving DecidableEq, Repr

/-- `UserMessage(content=...)`: `role` is the literal `"user"`. -/
def mkUserMessage (content : List Block) : PyMsg :=
  { role := "user", content := content }

/-- `AssistantMessage(...)`: `role` is the literal `"assistant"`. -/
def mkAssistantMessage (content : List Block) (api provider model : String)
    (stopReason : String) : PyMsg :=
  { role := "assistant", content := content, api := api, provider := provider,
    model := model, stopReason := stopReason }

/-- `ToolResultMessage(...)`: `role` is the literal `"tool_result"`
(pi_ai/types.py line 154). -/
def mkToolResultMessage (toolCallId toolName : String) (content : List Block)
    (isError : Bool) : PyMsg :=
  { role := "tool_result", content := content, toolCallId := toolCallId,
    toolName := toolName, isError := isError }

/-- A model descriptor, reduced to the three fields the transform compares. -/
structure ModelDesc where
  id : String
  api : String
  provider : String
deriving DecidableEq, Repr

/-! ## pi_ai/transform.py: cross-provider transform -/

/-- Association-list lookup standing in for `tool_call_id_map.get`. -/
def idMapGet (m : List (String × String)) (key : String) : Option String :=
  match m.reverse.find? (fun kv => kv.1 = key) with
  | some kv => some kv.2
  | none => none

/-- Pass 1 of `transform_messages`, one assistant content block
(transform.py lines 51-89).  The branches test `block.type` against the
literals `"thinking"`, `"text"` and `"toolCall"`; a block matching none of
the branches is not appended.  Returns the blocks to append and the
tool-call-id map entries to record. -/
def transformBlock (isSameModel : Bool)
    (normalizeToolCallId : Option (String → String)) (block : Block) :
    List Block × List (String × String) :=
  if block.type = "thinking" then
    if isSameModel ∧ block.thinkingSignature.getD "" ≠ "" then ([block], [])
    else if block.thinking = "" ∨ block.thinking.trim = "" then ([], [])
    else if isSameModel then ([block], [])
    else ([mkTextContent block.thinking], [])
  else if block.type = "text" then
    if isSameModel then ([block], [])
    else ([mkTextContent block.text], [])
  else if block.type = "toolCall" then
    let toolCall :=
      if ¬ isSameModel ∧ block.thoughtSignature.getD "" ≠ "" then
        mkToolCall block.id block.name block.arguments none
      else block
    match normalizeToolCallId with
    | some normalize =>
      if ¬ isSameModel then
        let normalizedId := normalize toolCall.id
        if normalizedId ≠ toolCall.id then
          ([mkToolCall normalizedId toolCall.name toolCall.arguments none],
           [(toolCall.id, normalizedId)])
        else ([toolCall], [])
      else ([toolCall], [])
    | none => ([toolCall], [])
  else ([], [])

/-- Pass 1 of `transform_messages` (transform.py lines 19-106): users pass
through, `"toolResult"`-role messages get their id remapped, assistant
messages get their content normalised block by block. -/
def transformPass1 (model : ModelDesc)
    (normalizeToolCallId : Option (String → String)) :
    List PyMsg → List (String × String) → List PyMsg
  | [], _ => []
  | msg :: rest, idMap =>
    if msg.role = "user" then msg :: transformPass1 model normalizeToolCallId rest idMap
    else if msg.role = "toolResult" then
      let out :=
        match idMapGet idMap msg.toolCallId with
        | some normalized =>
          if normalized ≠ msg.toolCallId then
            { msg with toolCallId := normalized }
          else msg
        | none => msg
      out :: transformPass1 model normalizeToolCallId rest idMap
    else if msg.role = "assistant" then
      let isSameModel := msg.provider = model.provider ∧ msg.api = model.api ∧
        msg.model = model.id
      let step := msg.content.foldl
        (fun acc block =>
          let r := transformBlock isSameModel normalizeToolCallId block
          (acc.1 ++ r.1, acc.2 ++ r.2))
        (([], []) : List Block × List (String × String))
      { msg with content := step.1 } ::
        transformPass1 model normalizeToolCallId rest (idMap ++ step.2)
    else msg :: transformPass1 model normalizeToolCallId rest idMap

/-- `_flush_pending` (transform.py lines 113-127): synthesize an error tool
result for every pending tool call whose id has no recorded result. -/
def flushPending (pending : List Block) (existing : List String) : List PyMsg :=
  (pending.filter (fun tc => ¬ existing.contains tc.id)).map
    (fun tc =>
      mkToolResultMessage tc.id tc.name [mkTextContent "No result provided"] true)

/-- Pass 2 of `transform_messages` (transform.py lines 129-153): scan for
orphaned tool calls.  Assistant messages flush the previous batch, are
dropped when `stop_reason ∈ {error, aborted}`, and start a new batch from
their `"toolCall"`-typed blocks; `"toolResult"`-role messages record their
id; user messages flush; anything else passes through. -/
def transformPass2 : List PyMsg → List Block → List String → List PyMsg
  | [], _, _ => []
  | msg :: rest, pending, existing =>
    if msg.role = "assistant" then
      let flushed := if pending ≠ [] then flushPending pending existing else []
      let existing1 := if pending ≠ [] then [] else existing
      if msg.stopReason = "error" ∨ msg.stopReason = "aborted" then
        flushed ++ transformPass2 rest [] existing1
      else
        let toolCalls := msg.content.filter (fun b => b.type = "toolCall")
        if toolCalls ≠ [] then
          flushed ++ msg :: transformPass2 rest toolCalls []
        else
          flushed ++ msg :: transformPass2 rest [] existing1
    else if msg.role = "toolResult" then
      msg :: transformPass2 rest pending (existing ++ [msg.toolCallId])
    else if msg.role = "user" then
      let flushed := if pending ≠ [] then flushPending pending existing else []
      let existing1 := if pending ≠ [] then [] else existing
      flushed ++ msg :: transformPass2 rest [] existing1
    else msg :: transformPass2 rest pending existing

/-- `transform_messages` (transform.py line 11): pass 1 then pass 2. -/
def transformMessages (messages : List PyMsg) (model : ModelDesc)
    (normalizeToolCallId : Option (String → String)) : List PyMsg :=
  transformPass2 (transformPass1 model normalizeToolCallId messages []) [] []

/-! ## pi_agent/loop.py: the agent loop

Async interactions are replaced by scripts: `responses` lists the finalized
assistant message each successive `_stream_assistant_response` call yields
(the growing partial and its `message_update` noise are elided; the final
message's `message_start`/`message_end` are kept); a steering or follow-up
callback is an optional list of the message lists its successive polls
return (`none` = callback not configured, a missing entry = `[]`).  A run
needing more provider responses than the script holds is `none`. -/

/-- `ToolResult` (pi_tools/base.py): the content blocks; details elided. -/
structure PyToolResult where
  content : List Block
deriving DecidableEq, Repr

/-- A `ToolDefinition`: its name, and `execute` taking the tool-call id and
the arguments.  Argument validation (`validate_tool_arguments`) and
execution both happen inside one `try` in loop.py lines 315-336, so both
kinds of failure are modelled as the `Except.error` of `execute`, carrying
the exception text. -/
structure ToolDef where
  name : String
  execute : String → String → Except String PyToolResult

/-- The events `_run_loop` pushes, with the payload fields the claims
inspect. -/
inductive AgentEvent where
  | agentStart
  | turnStart
  | messageStart (m : PyMsg)
  | messageEnd (m : PyMsg)
  | toolExecutionStart (toolCallId toolName : String)
  | toolExecutionEnd (toolCallId toolName : String) (result : PyToolResult)
      (isError : Bool)
  | turnEnd (m : PyMsg) (toolResults : List PyMsg)
  | agentEnd (messages : List PyMsg)
deriving DecidableEq, Repr

/-- `_skip_tool_call` (loop.py lines 370-400): synthesize the skipped-call
error result, emit its start/end pair and message events. -/
def skipToolCall (tc : Block) : List AgentEvent × PyMsg :=
  let result : PyToolResult :=
    { content := [mkTextContent "Skipped due to queued user message."] }
  let trm := mkToolResultMessage tc.id tc.name result.content true
  ([.toolExecutionStart tc.id tc.name,
    .toolExecutionEnd tc.id tc.name result true,
    .messageStart trm, .messageEnd trm], trm)

/-- The per-call loop of `_execute_tool_calls` (loop.py lines 302-366):
look the tool up by name, emit the start event, run it (any failure becomes
an error result carrying the exception text), emit the end event, wrap the
result into a tool-result message, emit its message events, then poll
steering; a non-empty poll skips every remaining call and stops.  Returns
(events, tool-result messages, steering messages, remaining steering
script). -/
def execCallsGo (tools : List ToolDef) :
    List Block → Option (List (List PyMsg)) →
    List AgentEvent × List PyMsg × Option (List PyMsg) ×
      Option (List (List PyMsg))
  | [], steer => ([], [], none, steer)
  | tc :: rest, steer =>
    let startEvt := AgentEvent.toolExecutionStart tc.id tc.name
    let executed : PyToolResult × Bool :=
      match tools.find? (fun t => t.name = tc.name) with
      | none => ({ content := [mkTextContent ("Tool " ++ tc.name ++ " not found")] }, true)
      | some tool =>
        match tool.execute tc.id tc.arguments with
        | .ok r => (r, false)
        | .error e => ({ content := [mkTextContent e] }, true)
    let result := executed.1
    let isError := executed.2
    let endEvt := AgentEvent.toolExecutionEnd tc.id tc.name result isError
    let trm := mkToolResultMessage tc.id tc.name result.content isError
    let callEvts := [startEvt, endEvt, AgentEvent.messageStart trm,
      AgentEvent.messageEnd trm]
    match steer with
    | none =>
      let r := execCallsGo tools rest none
      (callEvts ++ r.1, trm :: r.2.1, r.2.2.1, r.2.2.2)
    | some script =>
      let polled := script.headD []
      let script1 := script.tail
      if polled ≠ [] then
        let skipped := rest.map skipToolCall
        (callEvts ++ skipped.flatMap Prod.fst,
         trm :: skipped.map Prod.snd, some polled, some script1)
      else
        let r := execCallsGo tools rest (some script1)
        (callEvts ++ r.1, trm :: r.2.1, r.2.2.1, r.2.2.2)

/-- `_execute_tool_calls` (loop.py line 289): filter the assistant content
by `block.type == "toolCall"` (line 299) and run the calls. -/
def executeToolCalls (tools : List ToolDef) (assistantMessage : PyMsg)
    (steer : Option (List (List PyMsg))) :
    List AgentEvent × List PyMsg × Option (List PyMsg) ×
      Option (List (List PyMsg)) :=
  execCallsGo tools
    (assistantMessage.content.filter (fun b => b.type = "toolCall")) steer

/-- One poll of an optional steering/follow-up callback: the next scripted
list (missing entry = `[]`), plus the remaining script. -/
def pollScript (script : Option (List (List PyMsg))) :
    List PyMsg × Option (List (List PyMsg)) :=
  match script with
  | some s => (s.headD [], some s.tail)
  | none => ([], none)

/-- The body of `_run_loop` (loop.py lines 123-186), one turn per scripted
response: emit `turn_start` (except on the first turn), flush pending
messages into the context, stream the assistant message; `stop_reason ∈
{error, aborted}` ends the run with an empty `turn_end` and `agent_end`;
otherwise execute the `"toolCall"`-filtered calls, emit `turn_end`, refresh
pending from steering, and loop while tool calls or pending messages
remain; then poll follow-up and either continue or end.  Returns the
emitted events and the terminal message list `stream.end` receives. -/
def runLoopAux (tools : List ToolDef) :
    List PyMsg → Bool → List PyMsg → List PyMsg → List PyMsg →
    Option (List (List PyMsg)) → Option (List (List PyMsg)) →
    Option (List AgentEvent × List PyMsg)
  | [], _, _, _, _, _, _ => none
  | msg :: restResponses, firstTurn, pending, ctx, newMsgs, steer, follow =>
    let turnEvts : List AgentEvent := if firstTurn then [] else [.turnStart]
    let pendingEvts := pending.flatMap
      (fun m => [AgentEvent.messageStart m, AgentEvent.messageEnd m])
    let streamEvts := [AgentEvent.messageStart msg, AgentEvent.messageEnd msg]
    let ctx2 := (ctx ++ pending) ++ [msg]
    let new2 := (newMsgs ++ pending) ++ [msg]
    let pre := turnEvts ++ pendingEvts ++ streamEvts
    if msg.stopReason = "error" ∨ msg.stopReason = "aborted" then
      some (pre ++ [.turnEnd msg [], .agentEnd new2], new2)
    else
      let toolCalls := msg.content.filter (fun b => b.type = "toolCall")
      let hasMoreToolCalls := toolCalls ≠ []
      let exec :=
        if hasMoreToolCalls then executeToolCalls tools msg steer
        else ([], [], none, steer)
      let execEvts := exec.1
      let toolResults := exec.2.1
      let steeringAfter := exec.2.2.1
      let steer1 := exec.2.2.2
      let ctx3 := ctx2 ++ toolResults
      let new3 := new2 ++ toolResults
      let turnDone := pre ++ execEvts ++ [AgentEvent.turnEnd msg toolResults]
      let next :=
        if (steeringAfter.getD []) ≠ [] then (steeringAfter.getD [], steer1)
        else pollScript steer1
      let pending1 := next.1
      let steer2 := next.2
      if hasMoreToolCalls ∨ pending1 ≠ [] then
        match runLoopAux tools restResponses false pending1 ctx3 new3 steer2 follow with
        | none => none
        | some r => some (turnDone ++ r.1, r.2)
      else
        let fu := pollScript follow
        if fu.1 ≠ [] then
          match runLoopAux tools restResponses false fu.1 ctx3 new3 steer2 fu.2 with
          | none => none
          | some r => some (turnDone ++ r.1, r.2)
        else some (turnDone ++ [.agentEnd new3], new3)

/-- `agent_loop` (loop.py lines 25-52): emit `agent_start`, `turn_start` and
the prompts' message events, seed the context and new-message list with the
prompts, then run `_run_loop`, which first polls steering into the pending
list. -/
def agentLoop (prompts ctxMessages : List PyMsg) (tools : List ToolDef)
    (responses : List PyMsg) (steer follow : Option (List (List PyMsg))) :
    Option (List AgentEvent × List PyMsg) :=
  let startEvts := [AgentEvent.agentStart, AgentEvent.turnStart] ++
    prompts.flatMap (fun p => [AgentEvent.messageStart p, AgentEvent.messageEnd p])
  let s0 := pollScript steer
  match runLoopAux tools responses true s0.1 (ctxMessages ++ prompts) prompts
      s0.2 follow with
  | none => none
  | some r => some (startEvts ++ r.1, r.2)

/-- `agent_loop_continue` (loop.py lines 55-83): an empty context raises
before the stream exists; a trailing assistant message likewise; otherwise
the run starts with no prompts and an empty new-message list. -/
def agentLoopContinue (ctxMessages : List PyMsg) (tools : List ToolDef)
    (responses : List PyMsg) (steer follow : Option (List (List PyMsg))) :
    Except String (Option (List AgentEvent × List PyMsg)) :=
  if ctxMessages = [] then .error "Cannot continue: no messages in context"
  else if (ctxMessages.getLast?.map PyMsg.role).getD "" = "assistant" then
    .error "Cannot continue from message role: assistant"
  else
    let startEvts := [AgentEvent.agentStart, AgentEvent.turnStart]
    let s0 := pollScript steer
    .ok (match runLoopAux tools responses true s0.1 ctxMessages [] s0.2 follow with
    | none => none
    | some r => some (startEvts ++ r.1, r.2))

/-! ## pi_session/manager.py: the session log

Entries are the tagged variants of pi_session.  Ids are parameters (the
source draws fresh 8-hex-char ids at random; freshness becomes a
hypothesis); timestamps and on-disk persistence are elided, as is the
session header (excluded from `get_entries`).  `by_id` is a Python dict
keyed by id, rebuilt here as a right-to-left scan so a duplicate id would
resolve to the latest write, as in the source. -/

inductive SessionEntry where
  | message (id : String) (parentId : Option String) (msg : PyMsg)
  | thinkingLevelChange (id : String) (parentId : Option String) (level : String)
  | modelChange (id : String) (parentId : Option String) (provider modelId : String)
  | compaction (id : String) (parentId : Option String) (summary : String)
      (firstKeptEntryId : String) (tokensBefore : Nat)
  | branchSummary (id : String) (parentId : Option String) (fromId summary : String)
  | customEntry (id : String) (parentId : Option String) (customType : String)
  | customMessage (id : String) (parentId : Option String)
      (customType content : String) (display : Bool)
  | labelChange (id : String) (parentId : Option String) (targetId : String)
      (label : Option String)
  | sessionInfo (id : String) (parentId : Option String) (name : Option String)
deriving DecidableEq, Repr

def SessionEntry.id : SessionEntry → String
  | .message i _ _ => i
  | .thinkingLevelChange i _ _ => i
  | .modelChange i _ _ _ => i
  | .compaction i _ _ _ _ => i
  | .branchSummary i _ _ _ => i
  | .customEntry i _ _ => i
  | .customMessage i _ _ _ _ => i
  | .labelChange i _ _ _ => i
  | .sessionInfo i _ _ => i

def SessionEntry.parentId : SessionEntry → Option String
  | .message _ p _ => p
  | .thinkingLevelChange _ p _ => p
  | .modelChange _ p _ _ => p
  | .compaction _ p _ _ _ => p
  | .branchSummary _ p _ _ => p
  | .customEntry _ p _ => p
  | .customMessage _ p _ _ _ => p
  | .labelChange _ p _ _ => p
  | .sessionInfo _ p _ => p

/-- The `_by_id` dict: latest write wins. -/
def byId (entries : List SessionEntry) (i : String) : Option SessionEntry :=
  entries.reverse.find? (fun e => e.id = i)

/-- In-memory `SessionManager` state: the ordered non-header entries and the
leaf cursor (a fresh session starts with no entries and `leaf_id = None`). -/
structure SessionState where
  entries : List SessionEntry := []
  leafId : Option String := none
deriving DecidableEq

/-- `_append_entry` (manager.py lines 822-831): push the entry and repoint
the leaf at it. -/
def appendEntry (s : SessionState) (e : SessionEntry) : SessionState :=
  { entries := s.entries ++ [e], leafId := some e.id }

/-- `append_message` (manager.py lines 878-887): a message entry whose
parent is the current leaf, under a freshly generated id. -/
def appendMessage (s : SessionState) (newId : String) (msg : PyMsg) :
    SessionState :=
  appendEntry s (.message newId s.leafId msg)

/-- `branch` (manager.py lines 1054-1057): repoint the leaf at an existing
entry. -/
def branch (s : SessionState) (branchFromId : String) :
    Except String SessionState :=
  if (byId s.entries branchFromId).isSome then
    .ok { s with leafId := some branchFromId }
  else .error ("Entry " ++ branchFromId ++ " not found")

/-- `get_children` (manager.py lines 869-870): `by_id.values()` in insertion
order, filtered on `parentId`. -/
def getChildren (s : SessionState) (parentId : String) : List SessionEntry :=
  s.entries.filter (fun e => e.parentId = some parentId)

/-- A reconstructed context message (`build_session_context` emits the
wrapped message dicts plus synthetic `custom`/`branchSummary`/
`compactionSummary` dicts). -/
inductive CtxMsg where
  | message (m : PyMsg)
  | customMessage (customType content : String) (display : Bool)
  | branchSummary (summary fromId : String)
  | compactionSummary (summary : String) (tokensBefore : Nat)
deriving DecidableEq, Repr

structure SessionContext where
  messages : List CtxMsg
  thinkingLevel : String
  model : Option (String × String)
deriving DecidableEq

/-- The leaf-to-root walk of `build_session_context` (manager.py lines
578-582), in root-first order.  The Python `while` would loop forever on a
cyclic file; fuel bounds the walk by the entry count, which covers every
acyclic file. -/
def walkPath (entries : List SessionEntry) : Nat → Option SessionEntry →
    List SessionEntry
  | 0, _ => []
  | _, none => []
  | fuel + 1, some cur =>
    walkPath entries fuel (cur.parentId.bind (byId entries)) ++ [cur]

/-- The `append_message` closure of `build_session_context` (manager.py
lines 602-625): message, custom-message and branch-summary entries emit a
context message; every other entry emits nothing. -/
def entryCtxMsgs : SessionEntry → List CtxMsg
  | .message _ _ m => [.message m]
  | .customMessage _ _ t c d => [.customMessage t c d]
  | .branchSummary _ _ f su => [.branchSummary su f]
  | _ => []

/-- One step of the state scan of `build_session_context` (manager.py lines
584-598). -/
def scanStep (acc : String × Option (String × String) × Option SessionEntry)
    (e : SessionEntry) : String × Option (String × String) × Option SessionEntry :=
  match e with
  | .thinkingLevelChange _ _ lv => (lv, acc.2.1, acc.2.2)
  | .modelChange _ _ pr mid => (acc.1, some (pr, mid), acc.2.2)
  | .message _ _ m =>
    if m.role = "assistant" then (acc.1, some (m.provider, m.model), acc.2.2)
    else acc
  | .compaction i p su fk tb => (acc.1, acc.2.1, some (.compaction i p su fk tb))
  | _ => acc

/-- The state scan of `build_session_context`: latest thinking level, latest
model (a model change, or an assistant message's embedded provider/model),
latest compaction on the path. -/
def scanPath (path : List SessionEntry) :
    String × Option (String × String) × Option SessionEntry :=
  path.foldl scanStep ("off", none, none)

/-- `build_session_context` (manager.py lines 560-650) as the manager calls
it, with the leaf id passed explicitly.  With a compaction on the path the
message list is the compaction summary, then the entries from
`firstKeptEntryId` up to the compaction, then the entries after it;
otherwise the whole path's messages. -/
def buildSessionContext (entries : List SessionEntry) (leafId : Option String) :
    SessionContext :=
  match leafId.bind (byId entries) with
  | none => { messages := [], thinkingLevel := "off", model := none }
  | some leaf =>
    let path := walkPath entries entries.length (some leaf)
    let scanned := scanPath path
    let messages :=
      match scanned.2.2 with
      | some comp =>
        let summaryMsg : List CtxMsg :=
          match comp with
          | .compaction _ _ su _ tb => [.compactionSummary su tb]
          | _ => []
        let firstKept :=
          match comp with
          | .compaction _ _ _ fk _ => fk
          | _ => ""
        let prePost :=
          match path.findIdx? (fun e => e.id = comp.id) with
          | some n => (path.take n, path.drop (n + 1))
          | none => (path.take (path.length - 1), path)
        let pre := prePost.1
        let post := prePost.2
        let kept := pre.dropWhile (fun e => e.id ≠ firstKept)
        summaryMsg ++ kept.flatMap entryCtxMsgs ++ post.flatMap entryCtxMsgs
      | none => path.flatMap entryCtxMsgs
    { messages := messages, thinkingLevel := scanned.1, model := scanned.2.1 }

/-! ## `_parse_streaming_json`

pi_ai/providers/openai.py lines 726-738 and anthropic.py lines 642-654
define the same function: strip the accumulated text, then for each prefix
length from the full length down to 1, try `json.JSONDecoder().raw_decode`
on that prefix and return the first successful parse that is a dict; if
none is, return `{}`.

The model below embeds the JSON value space, a canonical serializer
(`json.dumps(J, separators=(",", ":"))`), and the decoder.  Restrictions,
each documented at its definition: numbers are integers (the float grammar
is elided; the serializer never emits fractions or exponents), and strings
are character lists.  The decoder is written fuel-first so it is total;
`rawDecode` supplies fuel one beyond the input length, which the
completeness lemma shows suffices for every serialized value. -/

namespace Sjson

/-- A JSON value.  Numbers are restricted to integers: the claims' inputs
come from the canonical serializer, which never emits a fraction or an
exponent. -/
inductive Json where
  | null
  | bool (b : Bool)
  | num (n : Int)
  | str (s : List Char)
  | arr (elems : List Json)
  | obj (members : List (List Char × Json))

/-- JSON whitespace, as `json.decoder.WHITESPACE` matches it. -/
def jsonWs (c : Char) : Bool :=
  c = ' ' || c = '\t' || c = '\n' || c = '\r'

/-- Python `str.strip()` whitespace (the ASCII part; the claims' inputs
contain no other). -/
def pyStripWs (c : Char) : Bool :=
  c = ' ' || c = '\t' || c = '\n' || c = '\r' || c = '\x0b' || c = '\x0c'

def skipJsonWs : List Char → List Char
  | c :: cs => if jsonWs c then skipJsonWs cs else c :: cs
  | [] => []

/-- `raw.strip()`: drop leading and trailing whitespace. -/
def pyStrip (cs : List Char) : List Char :=
  ((cs.dropWhile pyStripWs).reverse.dropWhile pyStripWs).reverse

def isDig (c : Char) : Bool := '0' ≤ c && c ≤ '9'

/-- The longest leading digit run and the rest. -/
def digitSpan : List Char → List Char × List Char
  | c :: cs =>
    if isDig c then
      let r := digitSpan cs
      (c :: r.1, r.2)
    else ([], c :: cs)
  | [] => ([], [])

def digitsNat (ds : List Char) : Nat :=
  ds.foldl (fun acc c => acc * 10 + (c.toNat - '0'.toNat)) 0

/-- The number production of the decoder: an optional minus sign and a
greedy digit run, as Python's `NUMBER_RE` matches an integer (the
fraction/exponent groups are elided with the float grammar). -/
def parseNumber (cs : List Char) : Option (Int × List Char) :=
  match cs with
  | '-' :: rest =>
    match digitSpan rest with
    | ([], _) => none
    | (ds, r) => some (-(digitsNat ds : Int), r)
  | _ =>
    match digitSpan cs with
    | ([], _) => none
    | (ds, r) => some ((digitsNat ds : Int), r)

def hexDigitVal (c : Char) : Option Nat :=
  if isDig c then
    some (c.toNat - '0'.toNat)
  else if 'a' ≤ c && c ≤ 'f' then
    some (10 + (c.toNat - 'a'.toNat))
  else if 'A' ≤ c && c ≤ 'F' then
    some (10 + (c.toNat - 'A'.toNat))
  else
    none

def hexQuad (a b c d : Char) : Option Nat :=
  match hexDigitVal a, hexDigitVal b, hexDigitVal c, hexDigitVal d with
  | some va, some vb, some vc, some vd =>
    some (((va * 16 + vb) * 16 + vc) * 16 + vd)
  | _, _, _, _ => none

/-- `json.decoder.BACKSLASH`: the short escapes. -/
def shortUnescape (c : Char) : Option Char :=
  if c = '"' then some '"'
  else if c = '\\' then some '\\'
  else if c = '/' then some '/'
  else if c = 'b' then some (Char.ofNat 8)
  else if c = 'f' then some (Char.ofNat 12)
  else if c = 'n' then some '\n'
  else if c = 'r' then some '\r'
  else if c = 't' then some '\t'
  else none

/-- `py_scanstring` after the opening quote, strict mode: a closing quote
ends the string, `\\uXXXX` and the short escapes decode, a lone backslash
or an unknown escape fails, an unescaped control character fails, and
running out of input fails.  (Surrogate pairing is elided; the serializer
only emits `\\u` forms for control characters.) -/
def scanString (acc : List Char) : List Char → Option (List Char × List Char)
  | '"' :: rest => some (acc.reverse, rest)
  | '\\' :: 'u' :: a :: b :: c :: d :: rest =>
    match hexQuad a b c d with
    | some n => scanString (Char.ofNat n :: acc) rest
    | none => none
  | '\\' :: e :: rest =>
    match shortUnescape e with
    | some ch => scanString (ch :: acc) rest
    | none => none
  | ['\\'] => none
  | c :: rest => if c.toNat < 32 then none else scanString (c :: acc) rest
  | [] => none

mutual
/-- `scan_once`: one JSON value at the head of the input (no leading
whitespace, as `raw_decode` is called after `strip()`). -/
def parseValue : Nat → List Char → Option (Json × List Char)
  | 0, _ => none
  | fuel + 1, cs =>
    match cs with
    | 'n' :: 'u' :: 'l' :: 'l' :: r => some (.null, r)
    | 't' :: 'r' :: 'u' :: 'e' :: r => some (.bool true, r)
    | 'f' :: 'a' :: 'l' :: 's' :: 'e' :: r => some (.bool false, r)
    | '"' :: r =>
      match scanString [] r with
      | some (s, r1) => some (.str s, r1)
      | none => none
    | '[' :: r =>
      (match skipJsonWs r with
      | ']' :: r1 => some (.arr [], r1)
      | r1 =>
        match parseItems fuel r1 with
        | some (es, r2) => some (.arr es, r2)
        | none => none)
    | '{' :: r =>
      (match skipJsonWs r with
      | '}' :: r1 => some (.obj [], r1)
      | r1 =>
        match parseFields fuel r1 with
        | some (ms, r2) => some (.obj ms, r2)
        | none => none)
    | c :: rest =>
      if c = '-' || isDig c then
        match parseNumber (c :: rest) with
        | some (n, r1) => some (.num n, r1)
        | none => none
      else none
    | [] => none
/-- `JSONArray` after a non-`]` first element: comma-separated values. -/
def parseItems : Nat → List Char → Option (List Json × List Char)
  | 0, _ => none
  | fuel + 1, cs =>
    match parseValue fuel cs with
    | none => none
    | some (v, r) =>
      match skipJsonWs r with
      | ',' :: r1 =>
        (match parseItems fuel (skipJsonWs r1) with
        | some (vs, r2) => some (v :: vs, r2)
        | none => none)
      | ']' :: r1 => some ([v], r1)
      | _ => none
/-- `JSONObject` after a non-`}` first member: quoted key, colon, value,
then a comma or the closing brace. -/
def parseFields : Nat → List Char → Option (List (List Char × Json) × List Char)
  | 0, _ => none
  | fuel + 1, cs =>
    match cs with
    | '"' :: r =>
      (match scanString [] r with
      | none => none
      | some (key, r1) =>
        match skipJsonWs r1 with
        | ':' :: r2 =>
          (match parseValue fuel (skipJsonWs r2) with
          | none => none
          | some (v, r3) =>
            match skipJsonWs r3 with
            | ',' :: r4 =>
              (match parseFields fuel (skipJsonWs r4) with
              | some (ms, r5) => some ((key, v) :: ms, r5)
              | none => none)
            | '}' :: r4 => some ([(key, v)], r4)
            | _ => none)
        | _ => none)
    | _ => none
end

/-- `JSONDecoder().raw_decode` on stripped input: the first complete JSON
value and the remainder.  Python's decoder recurses without bound; fuel one
beyond the input length is shown sufficient for every serialized value. -/
def rawDecode (cs : List Char) : Option (Json × List Char) :=
  parseValue (cs.length + 1) cs

/-- The `for idx in range(len(raw), 0, -1)` loop of `_parse_streaming_json`:
return the first prefix parse that is a dict, else `{}`. -/
def tryPrefixes (raw : List Char) : Nat → Json
  | 0 => .obj []
  | idx + 1 =>
    match rawDecode (raw.take (idx + 1)) with
    | some (.obj ms, _) => .obj ms
    | _ => tryPrefixes raw idx

/-- `_parse_streaming_json` (openai.py lines 726-738, anthropic.py lines
642-654): strip, return `{}` on empty, else scan prefixes longest first. -/
def parseStreamingJson (raw0 : List Char) : Json :=
  let raw := pyStrip raw0
  if raw.isEmpty then .obj []
  else tryPrefixes raw raw.length

/-! ### The canonical serializer: `json.dumps(J, separators=(",", ":"))`. -/

/-- `json.encoder.ESCAPE_DCT`: quote, backslash and the named control
escapes get two-character forms, other control characters get `\\u00XX`,
everything else is itself. -/
def toHexDig (n : Nat) : Char :=
  if n < 10 then Char.ofNat ('0'.toNat + n) else Char.ofNat ('a'.toNat + (n - 10))

def escapeChar (c : Char) : List Char :=
  if c = '"' then ['\\', '"']
  else if c = '\\' then ['\\', '\\']
  else if c = Char.ofNat 8 then ['\\', 'b']
  else if c = Char.ofNat 12 then ['\\', 'f']
  else if c = '\n' then ['\\', 'n']
  else if c = '\r' then ['\\', 'r']
  else if c = '\t' then ['\\', 't']
  else if c.toNat < 32 then
    ['\\', 'u', '0', '0', toHexDig (c.toNat / 16), toHexDig (c.toNat % 16)]
  else [c]

/-- A rendered string: quote, escaped characters, quote. -/
def renderStr (s : List Char) : List Char :=
  '"' :: (s.flatMap escapeChar ++ ['"'])

/-- Decimal digits of `n`, most significant first. -/
def natDigs (n : Nat) (acc : List Char) : List Char :=
  if n < 10 then Char.ofNat ('0'.toNat + n % 10) :: acc
  else natDigs (n / 10) (Char.ofNat ('0'.toNat + n % 10) :: acc)
termination_by n
decreasing_by omega

def intChars (i : Int) : List Char :=
  (if i < 0 then ['-'] else []) ++ natDigs i.natAbs []

mutual
/-- Compact rendering with `","` and `":"` separators. -/
def render : Json → List Char
  | .num n => intChars n
  | .str s => renderStr s
  | .null => ['n', 'u', 'l', 'l']
  | .bool false => ['f', 'a', 'l', 's', 'e']
  | .bool true => ['t', 'r', 'u', 'e']
  | .arr es => '[' :: (renderItems es ++ [']'])
  | .obj ms => '{' :: (renderFields ms ++ ['}'])
def renderItems : List Json → List Char
  | [] => []
  | e :: es => render e ++ renderItemsTail es
def renderItemsTail : List Json → List Char
  | [] => []
  | e :: es => ',' :: (render e ++ renderItemsTail es)
def renderFields : List (List Char × Json) → List Char
  | [] => []
  | (k, v) :: ms => renderStr k ++ ':' :: (render v ++ renderFieldsTail ms)
def renderFieldsTail : List (List Char × Json) → List Char
  | [] => []
  | (k, v) :: ms => ',' :: (renderStr k ++ ':' :: (render v ++ renderFieldsTail ms))
end

/-! ### Prefix utilities -/

theorem prefixOfCons {α : Type} {q : List α} {a : α} {l : List α}
    (h : q <+: a :: l) : q = [] ∨ ∃ t, q = a :: t ∧ t <+: l := by
  cases q with
  | nil => exact Or.inl rfl
  | cons b t =>
    rw [List.cons_prefix_cons] at h
    exact Or.inr ⟨t, by rw [h.1], h.2⟩

theorem prefixSplit {α : Type} :
    ∀ {a : List α} {q b : List α}, q <+: a ++ b →
    (q <+: a ∧ q ≠ a) ∨ ∃ r, q = a ++ r ∧ r <+: b := by
  intro a
  induction a with
  | nil => intro q b h; exact Or.inr ⟨q, rfl, h⟩
  | cons x xs ih =>
    intro q b h
    rcases prefixOfCons h with rfl | ⟨t, rfl, ht⟩
    · exact Or.inl ⟨List.nil_prefix, by simp⟩
    · rcases ih ht with ⟨h1, h2⟩ | ⟨r, rfl, hr⟩
      · exact Or.inl ⟨List.cons_prefix_cons.mpr ⟨rfl, h1⟩, by simpa using h2⟩
      · exact Or.inr ⟨r, by simp, hr⟩

theorem prefixHead {α : Type} {q l : List α} (h : q <+: l) (hq : q ≠ []) :
    ∃ c t t', q = c :: t ∧ l = c :: t' ∧ t <+: t' := by
  cases q with
  | nil => exact absurd rfl hq
  | cons c t =>
    cases l with
    | nil => exact absurd (List.prefix_nil.mp h) (by simp)
    | cons c' t' =>
      rw [List.cons_prefix_cons] at h
      exact ⟨c', t, t', by rw [h.1], rfl, h.2⟩

/-! ### Number lemmas -/

/-- The input cannot extend a leading digit run: empty or headed by a
non-digit.  Every delimiter the serializer emits after a number (`,`, `]`,
`}`, end of input) qualifies. -/
def noDigHead : List Char → Bool
  | [] => true
  | c :: _ => !(isDig c)

theorem digChar_spec (k : Nat) (h : k < 10) :
    (Char.ofNat ('0'.toNat + k)).toNat - '0'.toNat = k
      ∧ isDig (Char.ofNat ('0'.toNat + k)) = true := by
  have hall : ∀ j : Fin 10,
      (Char.ofNat ('0'.toNat + j.val)).toNat - '0'.toNat = j.val
        ∧ isDig (Char.ofNat ('0'.toNat + j.val)) = true := by decide
  exact hall ⟨k, h⟩

theorem natDigs_shift (n : Nat) : ∀ acc : List Char,
    natDigs n acc = natDigs n [] ++ acc := by
  induction n using Nat.strongRecOn with
  | _ n ih =>
    intro acc
    rw [natDigs.eq_def n acc, natDigs.eq_def n []]
    rcases Nat.lt_or_ge n 10 with h | h
    · rw [if_pos h, if_pos h]
      simp
    · have h2 := Nat.not_lt.mpr h
      rw [if_neg h2, if_neg h2, ih (n / 10) (by omega),
        ih (n / 10) (by omega) [_], List.append_assoc]
      simp

theorem natDigs_unfold (n : Nat) :
    natDigs n [] = (if n < 10 then [] else natDigs (n / 10) [])
      ++ [Char.ofNat ('0'.toNat + n % 10)] := by
  rw [natDigs.eq_def]
  by_cases h : n < 10
  · simp [h]
  · simp only [if_neg h]
    exact natDigs_shift (n / 10) [_]

theorem natDigs_ne_nil (n : Nat) : natDigs n [] ≠ [] := by
  rw [natDigs_unfold]; simp

theorem natDigs_digits (n : Nat) : ∀ c ∈ natDigs n [], isDig c = true := by
  induction n using Nat.strongRecOn with
  | _ n ih =>
    rw [natDigs_unfold]
    intro c hc
    rcases List.mem_append.mp hc with h | h
    · rcases Nat.lt_or_ge n 10 with h10 | h10
      · rw [if_pos h10] at h
        exact absurd h (List.not_mem_nil c)
      · rw [if_neg (Nat.not_lt.mpr h10)] at h
        exact ih (n / 10) (by omega) c h
    · rw [List.mem_singleton.mp h]
      exact (digChar_spec _ (Nat.mod_lt _ (by omega))).2

theorem natDigs_foldl (n : Nat) :
    (natDigs n []).foldl (fun acc c => acc * 10 + (c.toNat - '0'.toNat)) 0 = n := by
  induction n using Nat.strongRecOn with
  | _ n ih =>
    rw [natDigs_unfold, List.foldl_append]
    by_cases h : n < 10
    · simp only [if_pos h, List.foldl_nil, List.foldl_cons]
      rw [(digChar_spec _ (Nat.mod_lt _ (by omega))).1]
      omega
    · simp only [if_neg h, List.foldl_cons, List.foldl_nil]
      rw [ih (n / 10) (by omega), (digChar_spec _ (Nat.mod_lt _ (by omega))).1]
      omega

theorem digitsNat_natDigs (n : Nat) : digitsNat (natDigs n []) = n := by
  rw [digitsNat, natDigs_foldl]

theorem digitSpan_stop {cs : List Char} (h : noDigHead cs = true) :
    digitSpan cs = ([], cs) := by
  match cs with
  | [] => rfl
  | c :: t =>
    simp only [noDigHead, Bool.not_eq_eq_eq_not, Bool.not_true] at h
    simp [digitSpan, h]

theorem digitSpan_run (ds : List Char) (hds : ∀ c ∈ ds, isDig c = true)
    (rest : List Char) (hrest : digitSpan rest = ([], rest)) :
    digitSpan (ds ++ rest) = (ds, rest) := by
  induction ds with
  | nil => simpa using hrest
  | cons c t ih =>
    have hc : isDig c = true := hds c (by simp)
    have ht := ih (fun x hx => hds x (by simp [hx]))
    simp [digitSpan, hc, ht]

theorem natDigs_head (m : Nat) :
    ∃ c t, natDigs m [] = c :: t ∧ isDig c = true := by
  match h : natDigs m [] with
  | [] => exact absurd h (natDigs_ne_nil m)
  | c :: t => exact ⟨c, t, rfl, natDigs_digits m c (h ▸ List.mem_cons_self ..)⟩

theorem isDig_ne_minus {c : Char} (h : isDig c = true) : c ≠ '-' := by
  rintro rfl; exact absurd h (by decide)

/-- `parseNumber` inverts `intChars` whenever the remainder cannot extend
the digit run. -/
theorem parseNumber_intChars (i : Int) (rest : List Char)
    (hr : noDigHead rest = true) :
    parseNumber (intChars i ++ rest) = some (i, rest) := by
  have hstop : digitSpan rest = ([], rest) := digitSpan_stop hr
  obtain ⟨c, t, hct, hc⟩ := natDigs_head i.natAbs
  have hrun : digitSpan (c :: (t ++ rest)) = (c :: t, rest) := by
    have := digitSpan_run (natDigs i.natAbs []) (natDigs_digits _) rest hstop
    rwa [hct, List.cons_append] at this
  have hval : digitsNat (c :: t) = i.natAbs := by
    have := digitsNat_natDigs i.natAbs
    rwa [hct] at this
  have hm := isDig_ne_minus hc
  by_cases hi : i < 0
  · have harg : intChars i ++ rest = '-' :: (c :: (t ++ rest)) := by
      simp [intChars, hi, hct]
    rw [harg]
    show (match digitSpan (c :: (t ++ rest)) with
          | ([], _) => none
          | (ds, r) => some (-(digitsNat ds : Int), r)) = some (i, rest)
    rw [hrun]
    simp only [Option.some.injEq, Prod.mk.injEq, hval]
    exact ⟨by omega, trivial⟩
  · have harg : intChars i ++ rest = c :: (t ++ rest) := by
      simp [intChars, hi, hct]
    rw [harg, parseNumber.eq_def]
    split
    · rename_i heq
      injection heq with h1 _
      exact absurd h1 hm
    · rw [hrun]
      simp only [Option.some.injEq, Prod.mk.injEq, hval]
      exact ⟨by omega, trivial⟩

/-! ### String lemmas -/

theorem hexDigitVal_toHexDig (k : Nat) (h : k < 16) :
    hexDigitVal (toHexDig k) = some k := by
  have hall : ∀ j : Fin 16, hexDigitVal (toHexDig j.val) = some j.val := by decide
  exact hall ⟨k, h⟩

/-- Every escape is one of three shapes: the character itself, a
two-character short escape that decodes back, or a six-character `\u00XX`
whose hex quad carries the code point. -/
theorem escapeChar_shape (c : Char) :
    (escapeChar c = [c] ∧ c ≠ '"' ∧ c ≠ '\\' ∧ ¬ c.toNat < 32) ∨
    (∃ e, escapeChar c = ['\\', e] ∧ shortUnescape e = some c ∧ e ≠ 'u') ∨
    (escapeChar c = ['\\', 'u', '0', '0', toHexDig (c.toNat / 16), toHexDig (c.toNat % 16)] ∧
      hexQuad '0' '0' (toHexDig (c.toNat / 16)) (toHexDig (c.toNat % 16))
        = some c.toNat) := by
  by_cases h1 : c = '"'
  · subst h1; exact Or.inr (Or.inl ⟨'"', by decide, by decide, by decide⟩)
  by_cases h2 : c = '\\'
  · subst h2; exact Or.inr (Or.inl ⟨'\\', by decide, by decide, by decide⟩)
  by_cases h3 : c = Char.ofNat 8
  · subst h3; exact Or.inr (Or.inl ⟨'b', by decide, by decide, by decide⟩)
  by_cases h4 : c = Char.ofNat 12
  · subst h4; exact Or.inr (Or.inl ⟨'f', by decide, by decide, by decide⟩)
  by_cases h5 : c = '\n'
  · subst h5; exact Or.inr (Or.inl ⟨'n', by decide, by decide, by decide⟩)
  by_cases h6 : c = '\r'
  · subst h6; exact Or.inr (Or.inl ⟨'r', by decide, by decide, by decide⟩)
  by_cases h7 : c = '\t'
  · subst h7; exact Or.inr (Or.inl ⟨'t', by decide, by decide, by decide⟩)
  by_cases h8 : c.toNat < 32
  · refine Or.inr (Or.inr ⟨?_, ?_⟩)
    · simp [escapeChar, h1, h2, h3, h4, h5, h6, h7, h8]
    · have d1 : hexDigitVal (toHexDig (c.toNat / 16)) = some (c.toNat / 16) :=
        hexDigitVal_toHexDig _ (by omega)
      have d2 : hexDigitVal (toHexDig (c.toNat % 16)) = some (c.toNat % 16) :=
        hexDigitVal_toHexDig _ (Nat.mod_lt _ (by omega))
      have d0 : hexDigitVal '0' = some 0 := by decide
      simp only [hexQuad, d0, d1, d2]
      congr 1
      omega
  · exact Or.inl ⟨by simp [escapeChar, h1, h2, h3, h4, h5, h6, h7, h8],
      h1, h2, h8⟩

/-- Parsing one escaped character undoes the escape. -/
theorem scanString_escape (c : Char) (acc rest : List Char) :
    scanString acc (escapeChar c ++ rest) = scanString (c :: acc) rest := by
  rcases escapeChar_shape c with ⟨he, hq, hb, hc32⟩ | ⟨e, he, hu, hne⟩ | ⟨he, hx⟩
  · rw [he]
    show scanString acc (c :: rest) = _
    rw [scanString.eq_def]
    simp [hq, hb, hc32]
  · rw [he]
    show scanString acc ('\\' :: e :: rest) = _
    rw [scanString.eq_def]
    simp [hne, hu]
  · rw [he]
    show (match hexQuad '0' '0' (toHexDig (c.toNat / 16)) (toHexDig (c.toNat % 16)) with
          | some n => scanString (Char.ofNat n :: acc) rest
          | none => none) = scanString (c :: acc) rest
    rw [hx]
    show scanString (Char.ofNat c.toNat :: acc) rest = scanString (c :: acc) rest
    rw [Char.ofNat_toNat]

/-- Parsing a fully escaped body stops exactly at the closing quote. -/
theorem scanString_flat (s : List Char) : ∀ (acc rest : List Char),
    scanString acc (s.flatMap escapeChar ++ '"' :: rest)
      = some (acc.reverse ++ s, rest) := by
  induction s with
  | nil => intro acc rest; simp [scanString]
  | cons c cs ih =>
    intro acc rest
    rw [List.flatMap_cons, List.append_assoc, scanString_escape, ih]
    simp

/-- On a strict prefix of one escape, the string scanner fails. -/
theorem scanString_escapePrefix_none (c : Char) (q : List Char)
    (hpre : q <+: escapeChar c) (hne : q ≠ escapeChar c) (acc : List Char) :
    scanString acc q = none := by
  rcases escapeChar_shape c with ⟨he, _, _, _⟩ | ⟨e, he, _, _⟩ | ⟨he, _⟩ <;>
    rw [he] at hpre hne
  · rcases prefixOfCons hpre with rfl | ⟨t, rfl, ht⟩
    · rfl
    · rw [List.prefix_nil.mp ht] at hne
      exact absurd rfl hne
  · rcases prefixOfCons hpre with rfl | ⟨t, rfl, ht⟩
    · rfl
    rcases prefixOfCons ht with rfl | ⟨t2, rfl, ht2⟩
    · rfl
    · rw [List.prefix_nil.mp ht2] at hne
      exact absurd rfl hne
  · rcases prefixOfCons hpre with rfl | ⟨t, rfl, ht⟩
    · rfl
    rcases prefixOfCons ht with rfl | ⟨t2, rfl, ht2⟩
    · rfl
    rcases prefixOfCons ht2 with rfl | ⟨t3, rfl, ht3⟩
    · rfl
    rcases prefixOfCons ht3 with rfl | ⟨t4, rfl, ht4⟩
    · rfl
    rcases prefixOfCons ht4 with rfl | ⟨t5, rfl, ht5⟩
    · rfl
    rcases prefixOfCons ht5 with rfl | ⟨t6, rfl, ht6⟩
    · rfl
    · rw [List.prefix_nil.mp ht6] at hne
      exact absurd rfl hne

/-- On a strict prefix of a rendered string body (with its closing quote),
the string scanner fails: the only unescaped quote is the final one. -/
theorem scanString_prefix_none :
    ∀ (s : List Char) (q acc : List Char),
    q <+: (s.flatMap escapeChar ++ ['"']) → q ≠ s.flatMap escapeChar ++ ['"'] →
    scanString acc q = none := by
  intro s
  induction s with
  | nil =>
    intro q acc hpre hne
    simp only [List.flatMap_nil, List.nil_append] at hpre hne
    rcases prefixOfCons hpre with rfl | ⟨t, rfl, ht⟩
    · rfl
    · rw [List.prefix_nil.mp ht] at hne
      exact absurd rfl hne
  | cons c cs ih =>
    intro q acc hpre hne
    rw [List.flatMap_cons, List.append_assoc] at hpre hne
    rcases prefixSplit hpre with ⟨h1, h2⟩ | ⟨r, rfl, hr⟩
    · exact scanString_escapePrefix_none c q h1 h2 acc
    · rw [scanString_escape]
      exact ih r (c :: acc) hr (by intro hh; exact hne (by rw [hh]))

/-! ### Head and whitespace lemmas -/

theorem isDig_facts {c : Char} (h : isDig c = true) :
    jsonWs c = false ∧ c ≠ ']' ∧ c ≠ '}' ∧ c ≠ ',' ∧ c ≠ 'n' ∧ c ≠ 't' ∧
    c ≠ 'f' ∧ c ≠ '"' ∧ c ≠ '[' ∧ c ≠ '{' := by
  refine ⟨?_, ?_, ?_, ?_, ?_, ?_, ?_, ?_, ?_, ?_⟩
  · simp only [jsonWs, Bool.or_eq_false_iff, decide_eq_false_iff_not]
    refine ⟨⟨⟨?_, ?_⟩, ?_⟩, ?_⟩ <;> (rintro rfl; exact absurd h (by decide))
  all_goals (rintro rfl; exact absurd h (by decide))

/-- Every rendered value begins with a non-whitespace character that is
neither a closing bracket nor a closing brace. -/
theorem render_head (J : Json) :
    ∃ c t, render J = c :: t ∧ jsonWs c = false ∧ c ≠ ']' ∧ c ≠ '}' := by
  have hgood : ∀ c : Char, c ∈ ['n', 't', 'f', '"', '[', '{', '-'] →
      jsonWs c = false ∧ c ≠ ']' ∧ c ≠ '}' := by decide
  cases J with
  | num n =>
    by_cases hm : n < 0
    · exact ⟨'-', natDigs n.natAbs [],
        by simp [render, intChars, hm], hgood '-' (by simp)⟩
    · obtain ⟨c, t, hct, hc⟩ := natDigs_head n.natAbs
      obtain ⟨hws, hbr, hbc, _⟩ := isDig_facts hc
      exact ⟨c, t, by simp [render, intChars, hm, hct], hws, hbr, hbc⟩
  | null => exact ⟨'n', _, rfl, hgood 'n' (by simp)⟩
  | bool b =>
    cases b with
    | true => exact ⟨'t', _, rfl, hgood 't' (by simp)⟩
    | false => exact ⟨'f', _, rfl, hgood 'f' (by simp)⟩
  | str s =>
    exact ⟨'"', s.flatMap escapeChar ++ ['"'],
      by simp [render, renderStr], hgood '"' (by simp)⟩
  | arr es => exact ⟨'[', _, rfl, hgood '[' (by simp)⟩
  | obj ms => exact ⟨'{', _, rfl, hgood '{' (by simp)⟩

theorem skipJsonWs_cons {c : Char} (h : jsonWs c = false) (r : List Char) :
    skipJsonWs (c :: r) = c :: r := by
  simp [skipJsonWs, h]

theorem skipJsonWs_render (J : Json) (x : List Char) :
    skipJsonWs (render J ++ x) = render J ++ x := by
  obtain ⟨c, t, hct, hws, _, _⟩ := render_head J
  rw [hct, List.cons_append, skipJsonWs_cons hws]

/-- The head of a nonempty prefix is the head of the full list. -/
theorem prefix_head_render {q : List Char} (J : Json) (x : List Char)
    (h : q <+: render J ++ x) (hq : q ≠ []) :
    ∃ c t, q = c :: t ∧ jsonWs c = false ∧ c ≠ ']' ∧ c ≠ '}' := by
  obtain ⟨c, t0, hct, hws, hbr, hbc⟩ := render_head J
  obtain ⟨c', t, t', hq', hl, _⟩ := prefixHead h hq
  rw [hct] at hl
  simp only [List.cons_append, List.cons.injEq] at hl
  exact ⟨c', t, hq', hl.1 ▸ hws, hl.1 ▸ hbr, hl.1 ▸ hbc⟩

theorem skipJsonWs_prefix_render {q : List Char} (J : Json) (x : List Char)
    (h : q <+: render J ++ x) (hq : q ≠ []) : skipJsonWs q = q := by
  obtain ⟨c, t, rfl, hws, _, _⟩ := prefix_head_render J x h hq
  exact skipJsonWs_cons hws t

/-! ### Parser step lemmas -/

theorem parseValue_nil : ∀ f, parseValue f [] = none := by
  intro f; cases f <;> rfl

theorem parseItems_nil : ∀ f, parseItems f [] = none := by
  intro f
  cases f with
  | zero => rfl
  | succ g => simp [parseItems, parseValue_nil]

theorem parseFields_nil : ∀ f, parseFields f [] = none := by
  intro f; cases f <;> rfl

theorem parseItems_succ (f : Nat) (cs : List Char) :
    parseItems (f + 1) cs
      = (match parseValue f cs with
        | none => none
        | some (v, r) =>
          match skipJsonWs r with
          | ',' :: r1 =>
            (match parseItems f (skipJsonWs r1) with
            | some (vs, r2) => some (v :: vs, r2)
            | none => none)
          | ']' :: r1 => some ([v], r1)
          | _ => none) := rfl

theorem parseFields_succ (f : Nat) (cs : List Char) :
    parseFields (f + 1) cs
      = (match cs with
        | '"' :: r =>
          (match scanString [] r with
          | none => none
          | some (key, r1) =>
            match skipJsonWs r1 with
            | ':' :: r2 =>
              (match parseValue f (skipJsonWs r2) with
              | none => none
              | some (v, r3) =>
                match skipJsonWs r3 with
                | ',' :: r4 =>
                  (match parseFields f (skipJsonWs r4) with
                  | some (ms, r5) => some ((key, v) :: ms, r5)
                  | none => none)
                | '}' :: r4 => some ([(key, v)], r4)
                | _ => none)
            | _ => none)
        | _ => none) := rfl

/-- A value whose input starts with a digit or minus sign parses through
`parseNumber`. -/
theorem parseValue_numHead (f : Nat) (c : Char) (t : List Char)
    (hn : c ≠ 'n') (ht : c ≠ 't') (hf : c ≠ 'f') (hq : c ≠ '"')
    (hk : c ≠ '[') (hb : c ≠ '{') (hg : (c = '-' || isDig c) = true) :
    parseValue (f + 1) (c :: t)
      = (match parseNumber (c :: t) with
        | some (n, r) => some (.num n, r)
        | none => none) := by
  rw [parseValue.eq_def]
  simp [hn, ht, hf, hq, hk, hb, hg]

/-- The array branch, when the element list is nonempty, reduces to
`parseItems`. -/
theorem parseValue_arrBranch (f : Nat) (e : Json) (es : List Json)
    (rest : List Char) :
    parseValue (f + 1) ('[' :: (renderItems (e :: es) ++ ']' :: rest))
      = (match parseItems f (renderItems (e :: es) ++ ']' :: rest) with
        | some (vs, r) => some (.arr vs, r)
        | none => none) := by
  have hskip : skipJsonWs (renderItems (e :: es) ++ ']' :: rest)
      = renderItems (e :: es) ++ ']' :: rest := by
    rw [show renderItems (e :: es) = render e ++ renderItemsTail es from rfl,
      List.append_assoc, skipJsonWs_render, ← List.append_assoc]
  obtain ⟨c, t, hct, _, hbr, _⟩ := render_head e
  have hcons : renderItems (e :: es) ++ ']' :: rest
      = c :: (t ++ renderItemsTail es ++ ']' :: rest) := by
    simp [renderItems, hct]
  have step : parseValue (f + 1) ('[' :: (renderItems (e :: es) ++ ']' :: rest))
      = (match skipJsonWs (renderItems (e :: es) ++ ']' :: rest) with
        | ']' :: r1 => some (.arr [], r1)
        | r1 =>
          match parseItems f r1 with
          | some (vs, r2) => some (.arr vs, r2)
          | none => none) := rfl
  rw [step, hskip]
  split
  · rename_i heq
    rw [hcons] at heq
    injection heq with h1 _
    exact absurd h1 hbr
  · rfl

/-- The object branch, when the member list is nonempty, reduces to
`parseFields`. -/
theorem parseValue_objBranch (f : Nat) (k : List Char) (v : Json)
    (ms : List (List Char × Json)) (rest : List Char) :
    parseValue (f + 1) ('{' :: (renderFields ((k, v) :: ms) ++ '}' :: rest))
      = (match parseFields f (renderFields ((k, v) :: ms) ++ '}' :: rest) with
        | some (ms1, r) => some (.obj ms1, r)
        | none => none) := by
  have hcons : renderFields ((k, v) :: ms) ++ '}' :: rest
      = '"' :: (k.flatMap escapeChar ++ ['"']
          ++ (':' :: (render v ++ renderFieldsTail ms ++ '}' :: rest))) := by
    simp [renderFields, renderStr]
  have hskip : skipJsonWs (renderFields ((k, v) :: ms) ++ '}' :: rest)
      = renderFields ((k, v) :: ms) ++ '}' :: rest := by
    rw [hcons]
    exact skipJsonWs_cons (by decide) _
  have step : parseValue (f + 1) ('{' :: (renderFields ((k, v) :: ms) ++ '}' :: rest))
      = (match skipJsonWs (renderFields ((k, v) :: ms) ++ '}' :: rest) with
        | '}' :: r1 => some (.obj [], r1)
        | r1 =>
          match parseFields f r1 with
          | some (ms1, r2) => some (.obj ms1, r2)
          | none => none) := rfl
  rw [step, hskip]
  split
  · rename_i heq
    rw [hcons] at heq
    injection heq with h1 _
    exact absurd h1 (by decide)
  · rfl

theorem skipJsonWs_renderItems (x : Json) (xs : List Json) (y : List Char) :
    skipJsonWs (renderItems (x :: xs) ++ y) = renderItems (x :: xs) ++ y := by
  rw [show renderItems (x :: xs) = render x ++ renderItemsTail xs from rfl,
    List.append_assoc, skipJsonWs_render, ← List.append_assoc]

theorem skipJsonWs_renderFields (k : List Char) (v : Json)
    (ms : List (List Char × Json)) (y : List Char) :
    skipJsonWs (renderFields ((k, v) :: ms) ++ y)
      = renderFields ((k, v) :: ms) ++ y := by
  rw [show renderFields ((k, v) :: ms)
      = renderStr k ++ ':' :: (render v ++ renderFieldsTail ms) from rfl,
    show renderStr k = '"' :: (k.flatMap escapeChar ++ ['"']) from rfl]
  simp only [List.cons_append]
  exact skipJsonWs_cons (by decide) _

/-! ### Completeness: the parser inverts the serializer -/

mutual
theorem rt_value : ∀ (J : Json) (fuel : Nat) (rest : List Char),
    (render J).length < fuel → noDigHead rest = true →
    parseValue fuel (render J ++ rest) = some (J, rest)
  | .null, fuel, rest, hf, _ => by
    cases fuel with
    | zero => simp [render] at hf
    | succ f => simp [render, parseValue]
  | .bool b, fuel, rest, hf, _ => by
    cases fuel with
    | zero => cases b <;> simp [render] at hf
    | succ f => cases b <;> simp [render, parseValue]
  | .num n, fuel, rest, hf, hr => by
    cases fuel with
    | zero => exact absurd hf (Nat.not_lt_zero _)
    | succ f =>
      by_cases hm : n < 0
      · have harg : render (.num n) ++ rest
            = '-' :: (natDigs n.natAbs [] ++ rest) := by
          simp [render, intChars, hm]
        rw [harg, parseValue_numHead f '-' _ (by decide) (by decide) (by decide)
          (by decide) (by decide) (by decide) (by decide), ← harg,
          show render (.num n) = intChars n from rfl, parseNumber_intChars n rest hr]
      · obtain ⟨c, t, hct, hc⟩ := natDigs_head n.natAbs
        obtain ⟨_, _, _, _, hn, ht', hf', hq, hk, hb⟩ := isDig_facts hc
        have harg : render (.num n) ++ rest = c :: (t ++ rest) := by
          simp [render, intChars, hm, hct]
        rw [harg, parseValue_numHead f c _ hn ht' hf' hq hk hb (by simp [hc]),
          ← harg, show render (.num n) = intChars n from rfl,
          parseNumber_intChars n rest hr]
  | .str s, fuel, rest, hf, _ => by
    cases fuel with
    | zero => exact absurd hf (Nat.not_lt_zero _)
    | succ f =>
      have harg : render (.str s) ++ rest
          = '"' :: (s.flatMap escapeChar ++ '"' :: rest) := by
        simp [render, renderStr]
      rw [harg]
      show (match scanString [] (s.flatMap escapeChar ++ '"' :: rest) with
            | some (s1, r1) => some (Json.str s1, r1)
            | none => none) = some (Json.str s, rest)
      rw [scanString_flat]
      simp
  | .arr [], fuel, rest, hf, _ => by
    cases fuel with
    | zero => simp [render] at hf
    | succ f => rfl
  | .arr (e :: es), fuel, rest, hf, _ => by
    cases fuel with
    | zero => exact absurd hf (Nat.not_lt_zero _)
    | succ f =>
      have hlen : (renderItems (e :: es)).length + 1 < f := by
        simp only [render, List.length_cons, List.length_append,
          List.length_singleton] at hf
        omega
      have harg : render (.arr (e :: es)) ++ rest
          = '[' :: (renderItems (e :: es) ++ ']' :: rest) := by
        simp [render]
      rw [harg, parseValue_arrBranch, rt_items e es f rest hlen]
  | .obj [], fuel, rest, hf, _ => by
    cases fuel with
    | zero => simp [render] at hf
    | succ f => rfl
  | .obj ((k, v) :: ms), fuel, rest, hf, _ => by
    cases fuel with
    | zero => exact absurd hf (Nat.not_lt_zero _)
    | succ f =>
      have hlen : (renderFields ((k, v) :: ms)).length + 1 < f := by
        simp only [render, List.length_cons, List.length_append,
          List.length_singleton] at hf
        omega
      have harg : render (.obj ((k, v) :: ms)) ++ rest
          = '{' :: (renderFields ((k, v) :: ms) ++ '}' :: rest) := by
        simp [render]
      rw [harg, parseValue_objBranch, rt_fields k v ms f rest hlen]
termination_by J _ _ _ _ => sizeOf J
theorem rt_items : ∀ (e : Json) (es : List Json) (fuel : Nat) (rest : List Char),
    (renderItems (e :: es)).length + 1 < fuel →
    parseItems fuel (renderItems (e :: es) ++ ']' :: rest) = some (e :: es, rest)
  | e, [], fuel, rest, hf => by
    cases fuel with
    | zero => omega
    | succ f =>
      have hfe : (render e).length < f := by
        simp only [renderItems, renderItemsTail, List.append_nil,
          List.length_append, List.length_nil] at hf
        omega
      have harg : renderItems (e :: []) ++ ']' :: rest = render e ++ ']' :: rest := by
        simp [renderItems, renderItemsTail]
      rw [harg, parseItems_succ, rt_value e f (']' :: rest) hfe rfl]
      rfl
  | e, x :: xs, fuel, rest, hf => by
    cases fuel with
    | zero => omega
    | succ f =>
      have hlens : (renderItems (e :: x :: xs)).length
          = (render e).length + 1 + (renderItems (x :: xs)).length := by
        simp only [renderItems, renderItemsTail, List.length_append,
          List.length_cons]
        omega
      have hfe : (render e).length < f := by omega
      have hfx : (renderItems (x :: xs)).length + 1 < f := by omega
      have harg : renderItems (e :: x :: xs) ++ ']' :: rest
          = render e ++ ',' :: (renderItems (x :: xs) ++ ']' :: rest) := by
        simp only [renderItems, renderItemsTail, List.append_assoc,
          List.cons_append]
      rw [harg, parseItems_succ,
        rt_value e f (',' :: (renderItems (x :: xs) ++ ']' :: rest)) hfe rfl]
      show (match parseItems f (skipJsonWs (renderItems (x :: xs) ++ ']' :: rest)) with
            | some (vs, r2) => some (e :: vs, r2)
            | none => none) = some (e :: x :: xs, rest)
      rw [skipJsonWs_renderItems, rt_items x xs f rest hfx]
termination_by e es _ _ _ => sizeOf e + sizeOf es
theorem rt_fields : ∀ (k : List Char) (v : Json) (ms : List (List Char × Json))
    (fuel : Nat) (rest : List Char),
    (renderFields ((k, v) :: ms)).length + 1 < fuel →
    parseFields fuel (renderFields ((k, v) :: ms) ++ '}' :: rest)
      = some ((k, v) :: ms, rest)
  | k, v, [], fuel, rest, hf => by
    cases fuel with
    | zero => omega
    | succ f =>
      have hfe : (render v).length < f := by
        simp only [renderFields, renderFieldsTail, renderStr, List.append_nil,
          List.length_append, List.length_cons, List.length_nil] at hf
        omega
      have harg : renderFields ((k, v) :: []) ++ '}' :: rest
          = '"' :: (k.flatMap escapeChar ++ '"' :: (':' :: (render v ++ '}' :: rest))) := by
        simp [renderFields, renderFieldsTail, renderStr]
      rw [harg, parseFields_succ]
      show (match scanString [] (k.flatMap escapeChar ++ '"' :: (':' :: (render v ++ '}' :: rest))) with
            | none => none
            | some (key, r1) =>
              match skipJsonWs r1 with
              | ':' :: r2 =>
                (match parseValue f (skipJsonWs r2) with
                | none => none
                | some (v1, r3) =>
                  match skipJsonWs r3 with
                  | ',' :: r4 =>
                    (match parseFields f (skipJsonWs r4) with
                    | some (ms1, r5) => some ((key, v1) :: ms1, r5)
                    | none => none)
                  | '}' :: r4 => some ([(key, v1)], r4)
                  | _ => none)
              | _ => none) = some ((k, v) :: [], rest)
      rw [scanString_flat]
      simp only [List.reverse_nil, List.nil_append]
      rw [show skipJsonWs (':' :: (render v ++ '}' :: rest))
          = ':' :: (render v ++ '}' :: rest) from skipJsonWs_cons (by decide) _]
      show (match parseValue f (skipJsonWs (render v ++ '}' :: rest)) with
            | none => none
            | some (v1, r3) =>
              match skipJsonWs r3 with
              | ',' :: r4 =>
                (match parseFields f (skipJsonWs r4) with
                | some (ms1, r5) => some ((k, v1) :: ms1, r5)
                | none => none)
              | '}' :: r4 => some ([(k, v1)], r4)
              | _ => none) = some ((k, v) :: [], rest)
      rw [skipJsonWs_render, rt_value v f ('}' :: rest) hfe rfl]
      rfl
  | k, v, (k2, v2) :: ms, fuel, rest, hf => by
    cases fuel with
    | zero => omega
    | succ f =>
      have hlens : (renderFields ((k, v) :: (k2, v2) :: ms)).length
          = (renderStr k).length + 1 + (render v).length + 1
            + (renderFields ((k2, v2) :: ms)).length := by
        simp only [renderFields, renderFieldsTail, List.length_append,
          List.length_cons]
        omega
      have hfe : (render v).length < f := by omega
      have hfx : (renderFields ((k2, v2) :: ms)).length + 1 < f := by omega
      have harg : renderFields ((k, v) :: (k2, v2) :: ms) ++ '}' :: rest
          = '"' :: (k.flatMap escapeChar ++ '"' :: (':' :: (render v
              ++ ',' :: (renderFields ((k2, v2) :: ms) ++ '}' :: rest)))) := by
        simp only [renderFields, renderFieldsTail, renderStr,
          List.append_assoc, List.cons_append, List.nil_append]
      rw [harg, parseFields_succ]
      show (match scanString [] (k.flatMap escapeChar ++ '"' :: (':' :: (render v
              ++ ',' :: (renderFields ((k2, v2) :: ms) ++ '}' :: rest)))) with
            | none => none
            | some (key, r1) =>
              match skipJsonWs r1 with
              | ':' :: r2 =>
                (match parseValue f (skipJsonWs r2) with
                | none => none
                | some (v1, r3) =>
                  match skipJsonWs r3 with
                  | ',' :: r4 =>
                    (match parseFields f (skipJsonWs r4) with
                    | some (ms1, r5) => some ((key, v1) :: ms1, r5)
                    | none => none)
                  | '}' :: r4 => some ([(key, v1)], r4)
                  | _ => none)
              | _ => none) = some ((k, v) :: (k2, v2) :: ms, rest)
      rw [scanString_flat]
      simp only [List.reverse_nil, List.nil_append]
      rw [show skipJsonWs (':' :: (render v ++ ',' :: (renderFields ((k2, v2) :: ms) ++ '}' :: rest)))
          = ':' :: (render v ++ ',' :: (renderFields ((k2, v2) :: ms) ++ '}' :: rest))
          from skipJsonWs_cons (by decide) _]
      show (match parseValue f (skipJsonWs (render v ++ ',' :: (renderFields ((k2, v2) :: ms) ++ '}' :: rest))) with
            | none => none
            | some (v1, r3) =>
              match skipJsonWs r3 with
              | ',' :: r4 =>
                (match parseFields f (skipJsonWs r4) with
                | some (ms1, r5) => some ((k, v1) :: ms1, r5)
                | none => none)
              | '}' :: r4 => some ([(k, v1)], r4)
              | _ => none) = some ((k, v) :: (k2, v2) :: ms, rest)
      rw [skipJsonWs_render,
        rt_value v f (',' :: (renderFields ((k2, v2) :: ms) ++ '}' :: rest)) hfe rfl]
      show (match parseFields f (skipJsonWs (renderFields ((k2, v2) :: ms) ++ '}' :: rest)) with
            | some (ms1, r5) => some ((k, v) :: ms1, r5)
            | none => none) = some ((k, v) :: (k2, v2) :: ms, rest)
      rw [skipJsonWs_renderFields, rt_fields k2 v2 ms f rest hfx]
termination_by k v ms _ _ _ => sizeOf v + sizeOf ms
end

/-- Reduction of `parseFields` past a rendered key and its colon. -/
theorem parseFields_key_step (f : Nat) (k : List Char) (rest1 : List Char) :
    parseFields (f + 1) ('"' :: (k.flatMap escapeChar ++ '"' :: (':' :: rest1)))
      = (match parseValue f (skipJsonWs rest1) with
        | none => none
        | some (v1, r3) =>
          match skipJsonWs r3 with
          | ',' :: r4 =>
            (match parseFields f (skipJsonWs r4) with
            | some (ms1, r5) => some ((k, v1) :: ms1, r5)
            | none => none)
          | '}' :: r4 => some ([(k, v1)], r4)
          | _ => none) := by
  rw [parseFields_succ]
  show (match scanString [] (k.flatMap escapeChar ++ '"' :: (':' :: rest1)) with
        | none => none
        | some (key, r1) =>
          match skipJsonWs r1 with
          | ':' :: r2 =>
            (match parseValue f (skipJsonWs r2) with
            | none => none
            | some (v1, r3) =>
              match skipJsonWs r3 with
              | ',' :: r4 =>
                (match parseFields f (skipJsonWs r4) with
                | some (ms1, r5) => some ((key, v1) :: ms1, r5)
                | none => none)
              | '}' :: r4 => some ([(key, v1)], r4)
              | _ => none)
          | _ => none) = _
  rw [scanString_flat]
  simp only [List.reverse_nil, List.nil_append]
  rfl

/-! ### Weak completeness: at any fuel the parse of a rendered value either
starves (`none`) or succeeds with exactly that value. -/

mutual
theorem wc_value : ∀ (J : Json) (fuel : Nat) (rest : List Char),
    noDigHead rest = true →
    parseValue fuel (render J ++ rest) = none ∨
    parseValue fuel (render J ++ rest) = some (J, rest)
  | J, 0, rest, _ => Or.inl rfl
  | .null, fuel + 1, rest, _ => Or.inr (by simp [render, parseValue])
  | .bool b, fuel + 1, rest, _ => Or.inr (by cases b <;> simp [render, parseValue])
  | .num n, fuel + 1, rest, hr =>
    Or.inr (by
      by_cases hm : n < 0
      · have harg : render (.num n) ++ rest
            = '-' :: (natDigs n.natAbs [] ++ rest) := by
          simp [render, intChars, hm]
        rw [harg, parseValue_numHead fuel '-' _ (by decide) (by decide) (by decide)
          (by decide) (by decide) (by decide) (by decide), ← harg,
          show render (.num n) = intChars n from rfl, parseNumber_intChars n rest hr]
      · obtain ⟨c, t, hct, hc⟩ := natDigs_head n.natAbs
        obtain ⟨_, _, _, _, hn, ht', hf', hq, hk, hb⟩ := isDig_facts hc
        have harg : render (.num n) ++ rest = c :: (t ++ rest) := by
          simp [render, intChars, hm, hct]
        rw [harg, parseValue_numHead fuel c _ hn ht' hf' hq hk hb (by simp [hc]),
          ← harg, show render (.num n) = intChars n from rfl,
          parseNumber_intChars n rest hr])
  | .str s, fuel + 1, rest, hr =>
    Or.inr (by
      have harg : render (.str s) ++ rest
          = '"' :: (s.flatMap escapeChar ++ '"' :: rest) := by
        simp [render, renderStr]
      rw [harg]
      show (match scanString [] (s.flatMap escapeChar ++ '"' :: rest) with
            | some (s1, r1) => some (Json.str s1, r1)
            | none => none) = some (Json.str s, rest)
      rw [scanString_flat]
      simp)
  | .arr [], fuel + 1, rest, _ => Or.inr rfl
  | .arr (e :: es), fuel + 1, rest, _ => by
    have harg : render (.arr (e :: es)) ++ rest
        = '[' :: (renderItems (e :: es) ++ ']' :: rest) := by
      simp [render]
    rw [harg, parseValue_arrBranch]
    rcases wc_items e es fuel rest with h | h <;> rw [h]
    · exact Or.inl rfl
    · exact Or.inr rfl
  | .obj [], fuel + 1, rest, _ => Or.inr rfl
  | .obj ((k, v) :: ms), fuel + 1, rest, _ => by
    have harg : render (.obj ((k, v) :: ms)) ++ rest
        = '{' :: (renderFields ((k, v) :: ms) ++ '}' :: rest) := by
      simp [render]
    rw [harg, parseValue_objBranch]
    rcases wc_fields k v ms fuel rest with h | h <;> rw [h]
    · exact Or.inl rfl
    · exact Or.inr rfl
termination_by J _ _ _ => sizeOf J
theorem wc_items : ∀ (e : Json) (es : List Json) (fuel : Nat) (rest : List Char),
    parseItems fuel (renderItems (e :: es) ++ ']' :: rest) = none ∨
    parseItems fuel (renderItems (e :: es) ++ ']' :: rest) = some (e :: es, rest)
  | _, _, 0, _ => Or.inl rfl
  | e, [], fuel + 1, rest => by
    have harg : renderItems (e :: []) ++ ']' :: rest = render e ++ ']' :: rest := by
      simp [renderItems, renderItemsTail]
    rw [harg, parseItems_succ]
    rcases wc_value e fuel (']' :: rest) rfl with h | h <;> rw [h]
    · exact Or.inl rfl
    · exact Or.inr rfl
  | e, x :: xs, fuel + 1, rest => by
    have harg : renderItems (e :: x :: xs) ++ ']' :: rest
        = render e ++ ',' :: (renderItems (x :: xs) ++ ']' :: rest) := by
      simp only [renderItems, renderItemsTail, List.append_assoc,
        List.cons_append]
    rw [harg, parseItems_succ]
    rcases wc_value e fuel (',' :: (renderItems (x :: xs) ++ ']' :: rest)) rfl
      with h | h <;> rw [h]
    · exact Or.inl rfl
    · show (match parseItems fuel (skipJsonWs (renderItems (x :: xs) ++ ']' :: rest)) with
            | some (vs, r2) => some (e :: vs, r2)
            | none => none) = none ∨
        (match parseItems fuel (skipJsonWs (renderItems (x :: xs) ++ ']' :: rest)) with
            | some (vs, r2) => some (e :: vs, r2)
            | none => none) = some (e :: x :: xs, rest)
      rw [skipJsonWs_renderItems]
      rcases wc_items x xs fuel rest with h2 | h2 <;> rw [h2]
      · exact Or.inl rfl
      · exact Or.inr rfl
termination_by e es _ _ => sizeOf e + sizeOf es
theorem wc_fields : ∀ (k : List Char) (v : Json) (ms : List (List Char × Json))
    (fuel : Nat) (rest : List Char),
    parseFields fuel (renderFields ((k, v) :: ms) ++ '}' :: rest) = none ∨
    parseFields fuel (renderFields ((k, v) :: ms) ++ '}' :: rest)
      = some ((k, v) :: ms, rest)
  | _, _, _, 0, _ => Or.inl rfl
  | k, v, [], fuel + 1, rest => by
    have harg : renderFields ((k, v) :: []) ++ '}' :: rest
        = '"' :: (k.flatMap escapeChar ++ '"' :: (':' :: (render v ++ '}' :: rest))) := by
      simp [renderFields, renderFieldsTail, renderStr]
    rw [harg, parseFields_key_step, skipJsonWs_render]
    rcases wc_value v fuel ('}' :: rest) rfl with h | h <;> rw [h]
    · exact Or.inl rfl
    · exact Or.inr rfl
  | k, v, (k2, v2) :: ms, fuel + 1, rest => by
    have harg : renderFields ((k, v) :: (k2, v2) :: ms) ++ '}' :: rest
        = '"' :: (k.flatMap escapeChar ++ '"' :: (':' :: (render v
            ++ ',' :: (renderFields ((k2, v2) :: ms) ++ '}' :: rest)))) := by
      simp only [renderFields, renderFieldsTail, renderStr,
        List.append_assoc, List.cons_append, List.nil_append]
    rw [harg, parseFields_key_step, skipJsonWs_render]
    rcases wc_value v fuel (',' :: (renderFields ((k2, v2) :: ms) ++ '}' :: rest)) rfl
      with h | h <;> rw [h]
    · exact Or.inl rfl
    · show (match parseFields fuel (skipJsonWs (renderFields ((k2, v2) :: ms) ++ '}' :: rest)) with
            | some (ms1, r5) => some ((k, v) :: ms1, r5)
            | none => none) = none ∨
        (match parseFields fuel (skipJsonWs (renderFields ((k2, v2) :: ms) ++ '}' :: rest)) with
            | some (ms1, r5) => some ((k, v) :: ms1, r5)
            | none => none) = some ((k, v) :: (k2, v2) :: ms, rest)
      rw [skipJsonWs_renderFields]
      rcases wc_fields k2 v2 ms fuel rest with h2 | h2 <;> rw [h2]
      · exact Or.inl rfl
      · exact Or.inr rfl
termination_by _ v ms _ _ => sizeOf v + sizeOf ms
end

/-! ### Prefix failure: on a strict prefix of a rendered value the parser
either fails or consumes the whole prefix as a bare number.  A strict
prefix of a rendered nonempty array or object body always fails. -/

theorem renderItemsTail_cons (x : Json) (xs : List Json) :
    renderItemsTail (x :: xs) = ',' :: renderItems (x :: xs) := rfl

theorem renderFieldsTail_cons (k2 : List Char) (v2 : Json)
    (ms : List (List Char × Json)) :
    renderFieldsTail ((k2, v2) :: ms) = ',' :: renderFields ((k2, v2) :: ms) := rfl

mutual
theorem pf_value : ∀ (J : Json) (fuel : Nat) (q : List Char),
    q <+: render J → q ≠ render J →
    parseValue fuel q = none ∨ ∃ m, parseValue fuel q = some (.num m, [])
  | .null, fuel, q, hpre, hne => by
    left
    rcases prefixOfCons hpre with rfl | ⟨t1, rfl, h1⟩
    · exact parseValue_nil fuel
    rcases prefixOfCons h1 with rfl | ⟨t2, rfl, h2⟩
    · cases fuel <;> rfl
    rcases prefixOfCons h2 with rfl | ⟨t3, rfl, h3⟩
    · cases fuel <;> rfl
    rcases prefixOfCons h3 with rfl | ⟨t4, rfl, h4⟩
    · cases fuel <;> rfl
    · rw [List.prefix_nil.mp h4] at hne
      exact absurd rfl hne
  | .bool true, fuel, q, hpre, hne => by
    left
    rcases prefixOfCons hpre with rfl | ⟨t1, rfl, h1⟩
    · exact parseValue_nil fuel
    rcases prefixOfCons h1 with rfl | ⟨t2, rfl, h2⟩
    · cases fuel <;> rfl
    rcases prefixOfCons h2 with rfl | ⟨t3, rfl, h3⟩
    · cases fuel <;> rfl
    rcases prefixOfCons h3 with rfl | ⟨t4, rfl, h4⟩
    · cases fuel <;> rfl
    · rw [List.prefix_nil.mp h4] at hne
      exact absurd rfl hne
  | .bool false, fuel, q, hpre, hne => by
    left
    rcases prefixOfCons hpre with rfl | ⟨t1, rfl, h1⟩
    · exact parseValue_nil fuel
    rcases prefixOfCons h1 with rfl | ⟨t2, rfl, h2⟩
    · cases fuel <;> rfl
    rcases prefixOfCons h2 with rfl | ⟨t3, rfl, h3⟩
    · cases fuel <;> rfl
    rcases prefixOfCons h3 with rfl | ⟨t4, rfl, h4⟩
    · cases fuel <;> rfl
    rcases prefixOfCons h4 with rfl | ⟨t5, rfl, h5⟩
    · cases fuel <;> rfl
    · rw [List.prefix_nil.mp h5] at hne
      exact absurd rfl hne
  | .num n, fuel, q, hpre, hne => by
    by_cases hm : n < 0
    · have hren : render (.num n) = '-' :: natDigs n.natAbs [] := by
        simp [render, intChars, hm]
      rw [hren] at hpre hne
      rcases prefixOfCons hpre with rfl | ⟨t, rfl, ht⟩
      · exact Or.inl (parseValue_nil fuel)
      have hdigs : ∀ c ∈ t, isDig c = true :=
        fun c hc => natDigs_digits n.natAbs c (ht.subset hc)
      have hspan : digitSpan t = (t, []) := by
        have := digitSpan_run t hdigs [] rfl
        rwa [List.append_nil] at this
      cases fuel with
      | zero => exact Or.inl rfl
      | succ f =>
        rw [parseValue_numHead f '-' t (by decide) (by decide) (by decide)
          (by decide) (by decide) (by decide) (by decide)]
        have hpn : parseNumber ('-' :: t)
            = (match digitSpan t with
              | ([], _) => none
              | (ds, r) => some (-(digitsNat ds : Int), r)) := rfl
        rw [hpn, hspan]
        cases t with
        | nil => exact Or.inl rfl
        | cons c t2 => exact Or.inr ⟨-(digitsNat (c :: t2) : Int), rfl⟩
    · have hren : render (.num n) = natDigs n.natAbs [] := by
        simp [render, intChars, hm]
      rw [hren] at hpre hne
      have hdigs : ∀ c ∈ q, isDig c = true :=
        fun c hc => natDigs_digits n.natAbs c (hpre.subset hc)
      have hspan : digitSpan q = (q, []) := by
        have := digitSpan_run q hdigs [] rfl
        rwa [List.append_nil] at this
      cases q with
      | nil => exact Or.inl (parseValue_nil fuel)
      | cons c t =>
        have hc : isDig c = true := hdigs c (by simp)
        obtain ⟨_, _, _, _, hn, ht', hf', hq, hk, hb⟩ := isDig_facts hc
        cases fuel with
        | zero => exact Or.inl rfl
        | succ f =>
          rw [parseValue_numHead f c t hn ht' hf' hq hk hb (by simp [hc])]
          have hpn : parseNumber (c :: t)
              = (match digitSpan (c :: t) with
                | ([], _) => none
                | (ds, r) => some ((digitsNat ds : Int), r)) := by
            rw [parseNumber.eq_def]
            split
            · rename_i heq
              injection heq with h1 _
              exact absurd h1 (isDig_ne_minus hc)
            · rfl
          rw [hpn, hspan]
          exact Or.inr ⟨(digitsNat (c :: t) : Int), rfl⟩
  | .str s, fuel, q, hpre, hne => by
    left
    have hren : render (.str s) = '"' :: (s.flatMap escapeChar ++ ['"']) := by
      simp [render, renderStr]
    rw [hren] at hpre hne
    rcases prefixOfCons hpre with rfl | ⟨t, rfl, ht⟩
    · exact parseValue_nil fuel
    cases fuel with
    | zero => rfl
    | succ f =>
      show (match scanString [] t with
            | some (s1, r1) => some (Json.str s1, r1)
            | none => none) = none
      rw [scanString_prefix_none s t [] ht (by
        intro hh
        exact hne (by rw [hh]))]
  | .arr [], fuel, q, hpre, hne => by
    left
    rcases prefixOfCons hpre with rfl | ⟨t1, rfl, h1⟩
    · exact parseValue_nil fuel
    rcases prefixOfCons h1 with rfl | ⟨t2, rfl, h2⟩
    · cases fuel with
      | zero => rfl
      | succ f =>
        show (match parseItems f [] with
              | some (es, r2) => some (Json.arr es, r2)
              | none => none) = none
        rw [parseItems_nil]
    · rw [List.prefix_nil.mp h2] at hne
      exact absurd rfl hne
  | .arr (e :: es), fuel, q, hpre, hne => by
    left
    have hren : render (.arr (e :: es)) = '[' :: (renderItems (e :: es) ++ [']']) := rfl
    rw [hren] at hpre hne
    rcases prefixOfCons hpre with rfl | ⟨t, rfl, ht⟩
    · exact parseValue_nil fuel
    have htne : t ≠ renderItems (e :: es) ++ [']'] := by
      intro hh; exact hne (by rw [hh])
    cases fuel with
    | zero => rfl
    | succ f =>
      cases t with
      | nil =>
        show (match parseItems f [] with
              | some (es1, r2) => some (Json.arr es1, r2)
              | none => none) = none
        rw [parseItems_nil]
      | cons c t2 =>
        have hshape : renderItems (e :: es) ++ [']']
            = render e ++ (renderItemsTail es ++ [']']) := by
          simp [renderItems, List.append_assoc]
        obtain ⟨c', t', heq, hws, hbr, _⟩ :=
          prefix_head_render e (renderItemsTail es ++ [']']) (hshape ▸ ht) (by simp)
        injection heq with heq1 heq2
        subst heq1
        subst heq2
        have step : parseValue (f + 1) ('[' :: (c :: t2))
            = (match skipJsonWs (c :: t2) with
              | ']' :: r1 => some (.arr [], r1)
              | r1 =>
                match parseItems f r1 with
                | some (es1, r2) => some (.arr es1, r2)
                | none => none) := rfl
        rw [step, skipJsonWs_cons hws]
        split
        · rename_i heq3
          injection heq3 with h1 _
          exact absurd h1 hbr
        · rw [pf_items e es f (c :: t2) ht htne]
  | .obj [], fuel, q, hpre, hne => by
    left
    rcases prefixOfCons hpre with rfl | ⟨t1, rfl, h1⟩
    · exact parseValue_nil fuel
    rcases prefixOfCons h1 with rfl | ⟨t2, rfl, h2⟩
    · cases fuel with
      | zero => rfl
      | succ f =>
        show (match parseFields f [] with
              | some (ms, r2) => some (Json.obj ms, r2)
              | none => none) = none
        rw [parseFields_nil]
    · rw [List.prefix_nil.mp h2] at hne
      exact absurd rfl hne
  | .obj ((k, v) :: ms), fuel, q, hpre, hne => by
    left
    have hren : render (.obj ((k, v) :: ms))
        = '{' :: (renderFields ((k, v) :: ms) ++ ['}']) := rfl
    rw [hren] at hpre hne
    rcases prefixOfCons hpre with rfl | ⟨t, rfl, ht⟩
    · exact parseValue_nil fuel
    have htne : t ≠ renderFields ((k, v) :: ms) ++ ['}'] := by
      intro hh; exact hne (by rw [hh])
    cases fuel with
    | zero => rfl
    | succ f =>
      cases t with
      | nil =>
        show (match parseFields f [] with
              | some (ms1, r2) => some (Json.obj ms1, r2)
              | none => none) = none
        rw [parseFields_nil]
      | cons c t2 =>
        have hshape : renderFields ((k, v) :: ms) ++ ['}']
            = '"' :: ((k.flatMap escapeChar ++ ['"'])
                ++ (':' :: (render v ++ (renderFieldsTail ms ++ ['}'])))) := by
          simp [renderFields, renderStr, List.append_assoc]
        have hhead : c = '"' := by
          have := hshape ▸ ht
          obtain ⟨c0, t0, t0', hq0, hl0, _⟩ := prefixHead this (by simp)
          injection hq0 with hq1 _
          injection hl0 with hl1 _
          rw [hq1, hl1]
        subst hhead
        have step : parseValue (f + 1) ('{' :: ('"' :: t2))
            = (match skipJsonWs ('"' :: t2) with
              | '}' :: r1 => some (.obj [], r1)
              | r1 =>
                match parseFields f r1 with
                | some (ms1, r2) => some (.obj ms1, r2)
                | none => none) := rfl
        rw [step, skipJsonWs_cons (by decide)]
        split
        · rename_i heq
          injection heq with h1 _
          exact absurd h1 (by decide)
        · rw [pf_fields k v ms f ('"' :: t2) ht htne]
termination_by J _ _ _ _ => sizeOf J
theorem pf_items : ∀ (e : Json) (es : List Json) (fuel : Nat) (q : List Char),
    q <+: renderItems (e :: es) ++ [']'] → q ≠ renderItems (e :: es) ++ [']'] →
    parseItems fuel q = none
  | e, es, 0, q, _, _ => rfl
  | e, es, fuel + 1, q, hpre, hne => by
    have hshape : renderItems (e :: es) ++ [']']
        = render e ++ (renderItemsTail es ++ [']']) := by
      simp [renderItems, List.append_assoc]
    rw [hshape] at hpre hne
    rw [parseItems_succ]
    rcases prefixSplit hpre with ⟨h1, h2⟩ | ⟨r, rfl, hr⟩
    · rcases pf_value e fuel q h1 h2 with h | ⟨m, h⟩ <;> rw [h]
      rfl
    · have hrne : r ≠ renderItemsTail es ++ [']'] := by
        intro hh; exact hne (by rw [hh])
      cases es with
      | nil =>
        have hr0 : r = [] := by
          simp only [renderItemsTail, List.nil_append] at hr hrne
          rcases prefixOfCons hr with rfl | ⟨t, rfl, htp⟩
          · rfl
          · rw [List.prefix_nil.mp htp] at hrne
            exact absurd rfl hrne
        subst hr0
        rcases wc_value e fuel [] rfl with h | h <;> rw [h] <;> try rfl
      | cons x xs =>
        rw [renderItemsTail_cons] at hr hrne
        rcases prefixOfCons hr with rfl | ⟨r2, rfl, hr2⟩
        · rcases wc_value e fuel [] rfl with h | h <;> rw [h] <;> try rfl
        · have hr2ne : r2 ≠ renderItems (x :: xs) ++ [']'] := by
            intro hh; exact hrne (by simp [hh])
          rcases wc_value e fuel (',' :: r2) rfl with h | h <;> rw [h]
          · show (match parseItems fuel (skipJsonWs r2) with
                  | some (vs, r3) => some (e :: vs, r3)
                  | none => none) = none
            cases r2 with
            | nil =>
              show (match parseItems fuel [] with
                    | some (vs, r3) => some (e :: vs, r3)
                    | none => none) = none
              rw [parseItems_nil]
            | cons c2 t2 =>
              have hskip : skipJsonWs (c2 :: t2) = c2 :: t2 := by
                have hsh2 : renderItems (x :: xs) ++ [']']
                    = render x ++ (renderItemsTail xs ++ [']']) := by
                  simp [renderItems, List.append_assoc]
                have hr2p : c2 :: t2 <+: renderItems (x :: xs) ++ [']'] := hr2
                exact skipJsonWs_prefix_render x _ (hsh2 ▸ hr2p) (by simp)
              rw [hskip, pf_items x xs fuel (c2 :: t2) hr2 hr2ne]
termination_by e es _ _ _ _ => 1 + sizeOf e + sizeOf es
decreasing_by
  all_goals simp_wf
  all_goals try omega
  all_goals subst_vars
  all_goals simp
  all_goals omega
theorem pf_fields : ∀ (k : List Char) (v : Json) (ms : List (List Char × Json))
    (fuel : Nat) (q : List Char),
    q <+: renderFields ((k, v) :: ms) ++ ['}'] →
    q ≠ renderFields ((k, v) :: ms) ++ ['}'] →
    parseFields fuel q = none
  | k, v, ms, 0, q, _, _ => rfl
  | k, v, [], fuel + 1, q, hpre, hne => by
    have hshape : renderFields ((k, v) :: ([] : List (List Char × Json))) ++ ['}']
        = '"' :: ((k.flatMap escapeChar ++ ['"'])
            ++ (':' :: (render v ++ (renderFieldsTail ([] : List (List Char × Json)) ++ ['}'])))) := by
      simp [renderFields, renderStr, List.append_assoc]
    rw [hshape] at hpre hne
    rcases prefixOfCons hpre with rfl | ⟨q1, rfl, hq1⟩
    · rfl
    have hq1ne : q1 ≠ (k.flatMap escapeChar ++ ['"'])
        ++ (':' :: (render v ++ (renderFieldsTail ([] : List (List Char × Json)) ++ ['}']))) := by
      intro hh; exact hne (by rw [hh])
    rcases prefixSplit hq1 with ⟨h1, h2⟩ | ⟨q2, rfl, hq2⟩
    · show (match scanString [] q1 with
            | none => none
            | some (key, r1) =>
              match skipJsonWs r1 with
              | ':' :: r2 =>
                (match parseValue fuel (skipJsonWs r2) with
                | none => none
                | some (v1, r3) =>
                  match skipJsonWs r3 with
                  | ',' :: r4 =>
                    (match parseFields fuel (skipJsonWs r4) with
                    | some (ms1, r5) => some ((key, v1) :: ms1, r5)
                    | none => none)
                  | '}' :: r4 => some ([(key, v1)], r4)
                  | _ => none)
              | _ => none) = none
      rw [scanString_prefix_none k q1 [] h1 h2]
    · have hkey : '"' :: ((k.flatMap escapeChar ++ ['"']) ++ q2)
          = '"' :: (k.flatMap escapeChar ++ '"' :: q2) := by
        simp
      rw [hkey]
      have hq2ne : q2 ≠ ':' :: (render v ++ (renderFieldsTail ([] : List (List Char × Json)) ++ ['}'])) := by
        intro hh; exact hq1ne (by rw [hh])
      rcases prefixOfCons hq2 with rfl | ⟨q3, rfl, hq3⟩
      · show (match scanString [] (k.flatMap escapeChar ++ '"' :: []) with
              | none => none
              | some (key, r1) =>
                match skipJsonWs r1 with
                | ':' :: r2 =>
                  (match parseValue fuel (skipJsonWs r2) with
                  | none => none
                  | some (v1, r3) =>
                    match skipJsonWs r3 with
                    | ',' :: r4 =>
                      (match parseFields fuel (skipJsonWs r4) with
                      | some (ms1, r5) => some ((key, v1) :: ms1, r5)
                      | none => none)
                    | '}' :: r4 => some ([(key, v1)], r4)
                    | _ => none)
                | _ => none) = none
        rw [scanString_flat]
        rfl
      · rw [parseFields_key_step]
        have hq3ne : q3 ≠ render v ++ (renderFieldsTail ([] : List (List Char × Json)) ++ ['}']) := by
          intro hh; exact hq2ne (by rw [hh])
        cases q3 with
        | nil =>
          show (match parseValue fuel (skipJsonWs []) with
                | none => none
                | some (v1, r3) =>
                  match skipJsonWs r3 with
                  | ',' :: r4 =>
                    (match parseFields fuel (skipJsonWs r4) with
                    | some (ms1, r5) => some ((k, v1) :: ms1, r5)
                    | none => none)
                  | '}' :: r4 => some ([(k, v1)], r4)
                  | _ => none) = none
          rw [show skipJsonWs ([] : List Char) = [] from rfl, parseValue_nil]
        | cons c3 t3 =>
          rw [skipJsonWs_prefix_render v _ hq3 (by simp)]
          rcases prefixSplit hq3 with ⟨h1, h2⟩ | ⟨q4, heq, hq4⟩
          · rcases pf_value v fuel (c3 :: t3) h1 h2 with h | ⟨m, h⟩ <;> rw [h]
            rfl
          · have hq4ne : q4 ≠ renderFieldsTail ([] : List (List Char × Json)) ++ ['}'] := by
              intro hh; exact hq3ne (by rw [heq, hh])
            rw [heq]
            have hq40 : q4 = [] := by
              simp only [renderFieldsTail, List.nil_append] at hq4 hq4ne
              rcases prefixOfCons hq4 with rfl | ⟨t, rfl, htp⟩
              · rfl
              · rw [List.prefix_nil.mp htp] at hq4ne
                exact absurd rfl hq4ne
            subst hq40
            rcases wc_value v fuel [] rfl with h | h <;> rw [h] <;> try rfl
  | k, v, (k2, v2) :: ms2, fuel + 1, q, hpre, hne => by
    have hshape : renderFields ((k, v) :: ((k2, v2) :: ms2)) ++ ['}']
        = '"' :: ((k.flatMap escapeChar ++ ['"'])
            ++ (':' :: (render v ++ (renderFieldsTail ((k2, v2) :: ms2) ++ ['}'])))) := by
      simp [renderFields, renderStr, List.append_assoc]
    rw [hshape] at hpre hne
    rcases prefixOfCons hpre with rfl | ⟨q1, rfl, hq1⟩
    · rfl
    have hq1ne : q1 ≠ (k.flatMap escapeChar ++ ['"'])
        ++ (':' :: (render v ++ (renderFieldsTail ((k2, v2) :: ms2) ++ ['}']))) := by
      intro hh; exact hne (by rw [hh])
    rcases prefixSplit hq1 with ⟨h1, h2⟩ | ⟨q2, rfl, hq2⟩
    · show (match scanString [] q1 with
            | none => none
            | some (key, r1) =>
              match skipJsonWs r1 with
              | ':' :: r2 =>
                (match parseValue fuel (skipJsonWs r2) with
                | none => none
                | some (v1, r3) =>
                  match skipJsonWs r3 with
                  | ',' :: r4 =>
                    (match parseFields fuel (skipJsonWs r4) with
                    | some (ms1, r5) => some ((key, v1) :: ms1, r5)
                    | none => none)
                  | '}' :: r4 => some ([(key, v1)], r4)
                  | _ => none)
              | _ => none) = none
      rw [scanString_prefix_none k q1 [] h1 h2]
    · have hkey : '"' :: ((k.flatMap escapeChar ++ ['"']) ++ q2)
          = '"' :: (k.flatMap escapeChar ++ '"' :: q2) := by
        simp
      rw [hkey]
      have hq2ne : q2 ≠ ':' :: (render v ++ (renderFieldsTail ((k2, v2) :: ms2) ++ ['}'])) := by
        intro hh; exact hq1ne (by rw [hh])
      rcases prefixOfCons hq2 with rfl | ⟨q3, rfl, hq3⟩
      · show (match scanString [] (k.flatMap escapeChar ++ '"' :: []) with
              | none => none
              | some (key, r1) =>
                match skipJsonWs r1 with
                | ':' :: r2 =>
                  (match parseValue fuel (skipJsonWs r2) with
                  | none => none
                  | some (v1, r3) =>
                    match skipJsonWs r3 with
                    | ',' :: r4 =>
                      (match parseFields fuel (skipJsonWs r4) with
                      | some (ms1, r5) => some ((key, v1) :: ms1, r5)
                      | none => none)
                    | '}' :: r4 => some ([(key, v1)], r4)
                    | _ => none)
                | _ => none) = none
        rw [scanString_flat]
        rfl
      · rw [parseFields_key_step]
        have hq3ne : q3 ≠ render v ++ (renderFieldsTail ((k2, v2) :: ms2) ++ ['}']) := by
          intro hh; exact hq2ne (by rw [hh])
        cases q3 with
        | nil =>
          show (match parseValue fuel (skipJsonWs []) with
                | none => none
                | some (v1, r3) =>
                  match skipJsonWs r3 with
                  | ',' :: r4 =>
                    (match parseFields fuel (skipJsonWs r4) with
                    | some (ms1, r5) => some ((k, v1) :: ms1, r5)
                    | none => none)
                  | '}' :: r4 => some ([(k, v1)], r4)
                  | _ => none) = none
          rw [show skipJsonWs ([] : List Char) = [] from rfl, parseValue_nil]
        | cons c3 t3 =>
          rw [skipJsonWs_prefix_render v _ hq3 (by simp)]
          rcases prefixSplit hq3 with ⟨h1, h2⟩ | ⟨q4, heq, hq4⟩
          · rcases pf_value v fuel (c3 :: t3) h1 h2 with h | ⟨m, h⟩ <;> rw [h]
            rfl
          · have hq4ne : q4 ≠ renderFieldsTail ((k2, v2) :: ms2) ++ ['}'] := by
              intro hh; exact hq3ne (by rw [heq, hh])
            rw [heq]
            rw [renderFieldsTail_cons] at hq4 hq4ne
            rcases prefixOfCons hq4 with rfl | ⟨q5, rfl, hq5⟩
            · rcases wc_value v fuel [] rfl with h | h <;> rw [h] <;> try rfl
            · have hq5ne : q5 ≠ renderFields ((k2, v2) :: ms2) ++ ['}'] := by
                intro hh; exact hq4ne (by simp [hh])
              rcases wc_value v fuel (',' :: q5) rfl with h | h <;> rw [h]
              · show (match parseFields fuel (skipJsonWs q5) with
                      | some (ms1, r5) => some ((k, v) :: ms1, r5)
                      | none => none) = none
                cases q5 with
                | nil =>
                  show (match parseFields fuel [] with
                        | some (ms1, r5) => some ((k, v) :: ms1, r5)
                        | none => none) = none
                  rw [parseFields_nil]
                | cons c5 t5 =>
                  have hskip : skipJsonWs (c5 :: t5) = c5 :: t5 := by
                    have hsh2 : renderFields ((k2, v2) :: ms2) ++ ['}']
                        = '"' :: ((k2.flatMap escapeChar ++ ['"'])
                            ++ (':' :: (render v2 ++ (renderFieldsTail ms2 ++ ['}'])))) := by
                      simp [renderFields, renderStr, List.append_assoc]
                    have hq5p : c5 :: t5 <+: renderFields ((k2, v2) :: ms2) ++ ['}'] := hq5
                    obtain ⟨c0, t0, t0', hq0, hl0, _⟩ :=
                      prefixHead (hsh2 ▸ hq5p) (by simp)
                    injection hq0 with hq01 _
                    injection hl0 with hl01 _
                    rw [hq01, ← hl01]
                    exact skipJsonWs_cons (by decide) _
                  rw [hskip, pf_fields k2 v2 ms2 fuel (c5 :: t5) hq5 hq5ne]
termination_by k v ms _ _ _ _ => 1 + sizeOf v + sizeOf ms
decreasing_by
  all_goals simp_wf
  all_goals try simp
  all_goals omega
end


/-! ### The streaming scan on prefixes of a serialized object -/

theorem rawDecode_render (J : Json) : rawDecode (render J) = some (J, []) := by
  have h := rt_value J ((render J).length + 1) [] (by omega) rfl
  rw [List.append_nil] at h
  exact h

theorem rawDecode_strict_prefix (J : Json) (q : List Char) (h1 : q <+: render J)
    (h2 : q ≠ render J) :
    rawDecode q = none ∨ ∃ m, rawDecode q = some (.num m, []) :=
  pf_value J (q.length + 1) q h1 h2

theorem tryPrefixes_fallthrough (raw : List Char) :
    ∀ n, (∀ idx, idx ≤ n →
        rawDecode (raw.take idx) = none ∨
        ∃ m, rawDecode (raw.take idx) = some (.num m, [])) →
      tryPrefixes raw n = .obj []
  | 0, _ => rfl
  | n + 1, h => by
    show (match rawDecode (raw.take (n + 1)) with
          | some (.obj ms, _) => Json.obj ms
          | _ => tryPrefixes raw n) = Json.obj []
    have hrec := tryPrefixes_fallthrough raw n (fun idx hle => h idx (Nat.le_succ_of_le hle))
    rcases h (n + 1) (Nat.le_refl _) with h0 | ⟨m, h0⟩ <;> rw [h0] <;> exact hrec

theorem tryPrefixes_full (raw : List Char) (ms : List (List Char × Json))
    (hne : raw ≠ []) (h : rawDecode raw = some (.obj ms, [])) :
    tryPrefixes raw raw.length = .obj ms := by
  cases hl : raw.length with
  | zero => exact absurd (List.length_eq_zero.mp hl) hne
  | succ n =>
    show (match rawDecode (raw.take (n + 1)) with
          | some (.obj ms1, _) => Json.obj ms1
          | _ => tryPrefixes raw n) = Json.obj ms
    rw [← hl, List.take_length, h]

theorem dropWhile_cons_of_neg {p : Char → Bool} {c : Char} {t : List Char}
    (h : p c = false) : (c :: t).dropWhile p = c :: t := by
  simp [List.dropWhile_cons, h]

theorem pyStrip_head_prefix {c : Char} {t : List Char} (hc : pyStripWs c = false) :
    pyStrip (c :: t) <+: c :: t := by
  unfold pyStrip
  rw [dropWhile_cons_of_neg hc]
  obtain ⟨u, hu⟩ := (List.dropWhile_suffix pyStripWs : _ <:+ (c :: t).reverse)
  exact ⟨u.reverse, by rw [← List.reverse_append, hu, List.reverse_reverse]⟩

theorem pyStrip_head_ne_nil {c : Char} {t : List Char} (hc : pyStripWs c = false) :
    pyStrip (c :: t) ≠ [] := by
  unfold pyStrip
  rw [dropWhile_cons_of_neg hc]
  intro h
  have h2 : (c :: t).reverse.dropWhile pyStripWs = [] := by
    have h3 := congrArg List.reverse h
    simpa using h3
  rw [List.dropWhile_eq_nil_iff] at h2
  have h4 := h2 c (by simp)
  rw [hc] at h4
  exact Bool.false_ne_true h4

theorem pyStrip_wrapped (c : Char) (body : List Char) (d : Char)
    (hc : pyStripWs c = false) (hd : pyStripWs d = false) :
    pyStrip (c :: (body ++ [d])) = c :: (body ++ [d]) := by
  unfold pyStrip
  rw [dropWhile_cons_of_neg hc]
  have hrev : (c :: (body ++ [d])).reverse = d :: (body.reverse ++ [c]) := by
    simp
  rw [hrev, dropWhile_cons_of_neg hd, ← hrev, List.reverse_reverse]

/-- On the full serialization of an object the prefix scan succeeds at once
and returns the object itself. -/
theorem parseStreamingJson_render_obj (ms : List (List Char × Json)) :
    parseStreamingJson (render (.obj ms)) = .obj ms := by
  have hsh : render (.obj ms) = '{' :: (renderFields ms ++ ['}']) := by
    simp [render]
  have hstrip : pyStrip (render (.obj ms)) = render (.obj ms) := by
    rw [hsh]; exact pyStrip_wrapped '{' (renderFields ms) '}' (by decide) (by decide)
  have hne : render (.obj ms) ≠ [] := by rw [hsh]; simp
  have hie : (render (.obj ms)).isEmpty = false := by rw [hsh]; rfl
  show (if (pyStrip (render (.obj ms))).isEmpty then Json.obj []
        else tryPrefixes (pyStrip (render (.obj ms)))
          (pyStrip (render (.obj ms))).length) = Json.obj ms
  rw [hstrip, hie]
  exact tryPrefixes_full _ ms hne (rawDecode_render _)

/-- On every strict prefix of the serialization of an object every tried
sub-prefix decodes to nothing or a bare number, so the scan returns `{}`. -/
theorem parseStreamingJson_strict_prefix (ms : List (List Char × Json))
    (p : List Char) (hp : p <+: render (.obj ms)) (hne : p ≠ render (.obj ms)) :
    parseStreamingJson p = .obj [] := by
  have hsh : render (.obj ms) = '{' :: (renderFields ms ++ ['}']) := by
    simp [render]
  cases p with
  | nil => rfl
  | cons c t =>
    have hc : c = '{' := by
      rw [hsh] at hp
      rcases prefixOfCons hp with h | ⟨t2, heq2, _⟩
      · exact absurd h (by simp)
      · injection heq2 with h1 _
    subst hc
    have hcws : pyStripWs '{' = false := by decide
    have hrawpre : pyStrip ('{' :: t) <+: '{' :: t := pyStrip_head_prefix hcws
    have hrawne : pyStrip ('{' :: t) ≠ [] := pyStrip_head_ne_nil hcws
    have hplen : ('{' :: t).length < (render (.obj ms)).length := by
      rcases Nat.lt_or_ge ('{' :: t).length (render (.obj ms)).length with h | h
      · exact h
      · exact absurd (hp.eq_of_length (Nat.le_antisymm hp.length_le h)) hne
    have hie : (pyStrip ('{' :: t)).isEmpty = false := by
      cases hx : pyStrip ('{' :: t) with
      | nil => exact absurd hx hrawne
      | cons a b => rfl
    show (if (pyStrip ('{' :: t)).isEmpty then Json.obj []
          else tryPrefixes (pyStrip ('{' :: t)) (pyStrip ('{' :: t)).length)
        = Json.obj []
    rw [hie]
    refine tryPrefixes_fallthrough _ _ (fun idx _ => ?_)
    refine rawDecode_strict_prefix (.obj ms) _
      (((List.take_prefix idx _).trans hrawpre).trans hp) ?_
    intro hh
    have h1 : ((pyStrip ('{' :: t)).take idx).length ≤ ('{' :: t).length :=
      Nat.le_trans (List.IsPrefix.length_le (List.take_prefix idx _))
        (List.IsPrefix.length_le hrawpre)
    rw [hh] at h1
    omega

end Sjson

/-! ## Theorems -/

/-- True on the `tool_execution_start`/`tool_execution_end` events. -/
def isToolExecEvent : AgentEvent → Bool
  | .toolExecutionStart _ _ => true
  | .toolExecutionEnd _ _ _ _ => true
  | _ => false

/-- C7 counterexample: with base 1000, model maximum 2500 and level `low`
the cap leaves 2500 − 2048 = 452 < 1024 tokens for output, yet the budget
is returned unreduced at its table value 2048: the code only reduces the
budget when `max_tokens ≤ thinking_budget`, not whenever fewer than 1024
output tokens remain. -/
theorem claim7_counterexample :
    adjustMaxTokensForThinking 1000 2500 "low" none = (2500, 2048) ∧
    ¬ (1024 ≤ 2500 - (adjustMaxTokensForThinking 1000 2500 "low" none).2) := by
  decide

/-- C7 amended: `adjust_max_tokens_for_thinking` looks the budget up in the
merged table (defaults `minimal 1024, low 2048, medium 8192, high 16384`,
`xhigh` clamped to `high`, caller overrides honoured), returns
`max_tokens = min (base + budget) model_max`, and reduces the budget only
when `max_tokens ≤ budget`: then to `max_tokens − 1024` when at least 1024
tokens exist, else to zero.  When `budget < max_tokens` the budget is
returned unchanged, even if fewer than 1024 output tokens remain. -/
theorem claim7_amended (base modelMax : Int) (level : String)
    (custom : Option (List (String × Int)))
    (hlevel : clampReasoning level ≠ "") :
    let b0 := dictGet (mergedBudgets custom) (clampReasoning level) 0
    let r := adjustMaxTokensForThinking base modelMax level custom
    r.1 = min (base + b0) modelMax ∧
    (b0 < r.1 → r.2 = b0) ∧
    (r.1 ≤ b0 → 1024 ≤ r.1 → r.2 = r.1 - 1024) ∧
    (r.1 ≤ b0 → r.1 < 1024 → r.2 = 0) ∧
    dictGet (mergedBudgets none) "minimal" 0 = 1024 ∧
    dictGet (mergedBudgets none) "low" 0 = 2048 ∧
    dictGet (mergedBudgets none) "medium" 0 = 8192 ∧
    dictGet (mergedBudgets none) "high" 0 = 16384 ∧
    clampReasoning "xhigh" = "high" := by
  refine ⟨?_, ?_, ?_, ?_, by decide, by decide, by decide, by decide, by decide⟩ <;>
    simp only [adjustMaxTokensForThinking, if_neg hlevel] <;>
    intros <;> split <;> omega

/-- C7 witness at base 8000, model maximum 16000, level `high` (the
repository's own test input). -/
theorem claim7_amended_witness :
    clampReasoning "high" ≠ "" ∧
    (let b0 := dictGet (mergedBudgets none) (clampReasoning "high") 0
     let r := adjustMaxTokensForThinking 8000 16000 "high" none
     r.1 = min (8000 + b0) 16000 ∧
     (b0 < r.1 → r.2 = b0) ∧
     (r.1 ≤ b0 → 1024 ≤ r.1 → r.2 = r.1 - 1024) ∧
     (r.1 ≤ b0 → r.1 < 1024 → r.2 = 0) ∧
     dictGet (mergedBudgets none) "minimal" 0 = 1024 ∧
     dictGet (mergedBudgets none) "low" 0 = 2048 ∧
     dictGet (mergedBudgets none) "medium" 0 = 8192 ∧
     dictGet (mergedBudgets none) "high" 0 = 16384 ∧
     clampReasoning "xhigh" = "high") :=
  ⟨by decide, claim7_amended 8000 16000 "high" none (by decide)⟩

/-- C9 counterexample: with no caller option and `PI_CACHE_RETENTION=none`,
`_resolve_cache_retention` returns `"short"`, not `"none"` (it only tests
the environment value against `"long"`), so the ephemeral cache marker is
still attached. -/
theorem claim9_counterexample :
    resolveCacheRetention none (some "none") = "short" ∧
    resolveCacheRetention none (some "none") ≠ "none" ∧
    getCacheControl "https://api.anthropic.com/v1" none (some "none")
      = ("short", some { type := "ephemeral", ttl := none }) := by
  decide

/-- C9 amended: with no caller option, `PI_CACHE_RETENTION=long` selects
long retention; every other environment value (including `short`, `none`,
or unset) leaves the default `short`, with the `{type: ephemeral}` marker
attached; retention `none` — and with it marker suppression — is obtained
only through the caller-passed option. -/
theorem claim9_amended (env : Option String) (url : String) :
    resolveCacheRetention none env = (if env = some "long" then "long" else "short") ∧
    (env ≠ some "long" →
      getCacheControl url none env = ("short", some { type := "ephemeral", ttl := none })) ∧
    getCacheControl url (some "none") env = ("none", none) := by
  refine ⟨?_, ?_, ?_⟩
  · simp [resolveCacheRetention]
  · intro h
    simp [getCacheControl, resolveCacheRetention, h]
  · simp [getCacheControl, resolveCacheRetention]

/-- C9 witness at `PI_CACHE_RETENTION=none` and the canonical endpoint. -/
theorem claim9_amended_witness :
    (resolveCacheRetention none (some "none")
        = (if (some "none" : Option String) = some "long" then "long" else "short") ∧
      ((some "none" : Option String) ≠ some "long" →
        getCacheControl "https://api.anthropic.com/v1" none (some "none")
          = ("short", some { type := "ephemeral", ttl := none })) ∧
      getCacheControl "https://api.anthropic.com/v1" (some "none") (some "none")
        = ("none", none)) :=
  claim9_amended (some "none") "https://api.anthropic.com/v1"

/-- C3: ending either stream without a terminal leaves `_result_event`
unset, so `result()` blocks forever instead of failing: the
`RuntimeError` branch after the wait is unreachable.  Evaluated on the
provider stream after a `text_delta` push and a bare `end()`, and on the
agent stream after a bare `end(None)`. -/
theorem claim3_code_bug :
    (ProviderStream.resultOutcome
        (ProviderStream.endStream
          (ProviderStream.push ({} : ProviderStream Nat) { type := "text_delta" })
          none)
      = .blocked) ∧
    (AgentStream.resultOutcome
        (AgentStream.endStream ({} : AgentStream Nat) none)
      = .blocked) := by
  decide

/-- C2 failing input: the repository's own transform test — an assistant
message whose single tool call has no tool result, followed by a user
message. -/
def c2Assistant : PyMsg :=
  mkAssistantMessage [mkToolCall "tool-1" "echo" "\x7b\"value\": \"hi\"\x7d" none]
    "openai-completions" "openai" "mock" "tool_use"

def c2User : PyMsg := mkUserMessage [mkTextContent "follow up"]

def c2Model : ModelDesc :=
  { id := "mock", api := "openai-completions", provider := "openai" }

/-- C2: `transform_messages` never synthesizes the `"No result provided"`
tool result: its scans compare `block.type == "toolCall"` and
`msg.role == "toolResult"` while the constructed objects carry
`"tool_call"` / `"tool_result"`, so the orphaned call is never detected —
pass 1 even drops the tool-call block (no branch matches it).  The
repository's own test expects three output messages here; the code yields
two, with no tool result. -/
theorem claim2_code_bug :
    transformMessages [c2Assistant, c2User] c2Model none
      = [{ c2Assistant with content := [] }, c2User] ∧
    ((transformMessages [c2Assistant, c2User] c2Model none).filter
        (fun m => m.role = "tool_result")).length = 0 := by
  decide

/-- C1 failing input: a run whose single provider response carries one
tool-call block and `stop_reason = "tool_use"`. -/
def c1Msg : PyMsg :=
  mkAssistantMessage [mkToolCall "tool-1" "echo" "\x7b\"value\": \"hello\"\x7d" none]
    "openai-completions" "openai" "mock" "tool_use"

def c1User : PyMsg := mkUserMessage [mkTextContent "go"]

def c1Echo : ToolDef :=
  { name := "echo", execute := fun _ _ => .ok { content := [mkTextContent "ok:hello"] } }

/-- C1: the loop filters tool calls with `block.type == "toolCall"` while
the blocks carry `"tool_call"`, so a message with one tool-call block
yields zero `tool_execution_*` events and zero tool-result messages, not
one of each; the run simply ends.  The repository's own agent-loop test
expects the echo tool to run on this input. -/
theorem claim1_code_bug :
    agentLoop [c1User] [] [c1Echo] [c1Msg] none none
      = some ([.agentStart, .turnStart, .messageStart c1User, .messageEnd c1User,
               .messageStart c1Msg, .messageEnd c1Msg, .turnEnd c1Msg [],
               .agentEnd [c1User, c1Msg]],
              [c1User, c1Msg]) ∧
    (c1Msg.content.filter (fun b => b.type = "tool_call")).length = 1 ∧
    c1Msg.stopReason = "tool_use" := by
  decide

/-- C5 failing input: an assistant message with two tool-call blocks, an
available echo tool, and a steering script whose first poll returns an
interrupt message. -/
def c5Msg : PyMsg :=
  mkAssistantMessage
    [mkToolCall "tool-1" "echo" "\x7b\"value\": \"first\"\x7d" none,
     mkToolCall "tool-2" "echo" "\x7b\"value\": \"second\"\x7d" none]
    "openai-completions" "openai" "mock" "tool_use"

def c5Echo : ToolDef :=
  { name := "echo", execute := fun _ _ => .ok { content := [mkTextContent "ok"] } }

def c5Steer : Option (List (List PyMsg)) :=
  some [[mkUserMessage [mkTextContent "interrupt"]]]

/-- C5: `_execute_tool_calls` filters with `block.type == "toolCall"` while
the blocks carry `"tool_call"`, so on a two-call batch it executes nothing,
never polls steering, and synthesizes no `"Skipped due to queued user
message."` result — instead of executing the first call and skipping the
second with a matched error pair, as the repository's own steering test
expects. -/
theorem claim5_code_bug :
    executeToolCalls [c5Echo] c5Msg c5Steer = ([], [], none, c5Steer) ∧
    (c5Msg.content.filter (fun b => b.type = "tool_call")).length = 2 := by
  decide

/-- C10: `agent_loop_continue` on a context with an empty message list
raises `ValueError("Cannot continue: no messages in context")` before the
stream exists — in the model, the `Except.error` branch is taken before any
run (and hence any event) is produced, whatever the tools, provider
responses, steering or follow-up would have been. -/
theorem claim10_empty_context_raises (tools : List ToolDef)
    (responses : List PyMsg) (steer follow : Option (List (List PyMsg))) :
    agentLoopContinue [] tools responses steer follow
      = .error "Cannot continue: no messages in context" := rfl

/-- C4: at any point of any run, when the streamed assistant message
finalizes with `stop_reason ∈ {error, aborted}`, the loop emits exactly the
turn prefix (optional `turn_start`, pending-message events, the message's
`message_start`/`message_end`), then `turn_end` with an empty tool-result
list, then `agent_end`, and terminates the stream with the accumulated
message list; no `tool_execution_*` event is emitted from that point and no
tool result is appended. -/
theorem claim4_error_abort_ends_run (tools : List ToolDef) (rest : List PyMsg)
    (firstTurn : Bool) (pending ctx newMsgs : List PyMsg)
    (steer follow : Option (List (List PyMsg))) (msg : PyMsg)
    (h : msg.stopReason = "error" ∨ msg.stopReason = "aborted") :
    runLoopAux tools (msg :: rest) firstTurn pending ctx newMsgs steer follow
      = some (((if firstTurn then ([] : List AgentEvent) else [.turnStart]) ++
          pending.flatMap (fun m => [AgentEvent.messageStart m, AgentEvent.messageEnd m]) ++
          [AgentEvent.messageStart msg, AgentEvent.messageEnd msg]) ++
          [AgentEvent.turnEnd msg [], AgentEvent.agentEnd ((newMsgs ++ pending) ++ [msg])],
          (newMsgs ++ pending) ++ [msg]) ∧
    (((if firstTurn then ([] : List AgentEvent) else [.turnStart]) ++
        pending.flatMap (fun m => [AgentEvent.messageStart m, AgentEvent.messageEnd m]) ++
        [AgentEvent.messageStart msg, AgentEvent.messageEnd msg] ++
        [AgentEvent.turnEnd msg [], AgentEvent.agentEnd ((newMsgs ++ pending) ++ [msg])]).filter
          isToolExecEvent) = [] := by
  constructor
  · simp only [runLoopAux, if_pos h]
  · have hpend : ∀ ms : List PyMsg,
        (ms.flatMap (fun m => [AgentEvent.messageStart m, AgentEvent.messageEnd m])).filter
          isToolExecEvent = [] := by
      intro ms
      induction ms with
      | nil => rfl
      | cons m t ih => simp [List.flatMap_cons, List.filter_append, ih, isToolExecEvent]
    cases firstTurn <;>
      simp [List.filter_append, hpend, isToolExecEvent]

/-- C4 witness: a single aborted response on a fresh run. -/
theorem claim4_witness :
    (let msg := mkAssistantMessage [] "openai-completions" "openai" "mock" "aborted"
     msg.stopReason = "error" ∨ msg.stopReason = "aborted") ∧
    (let msg := mkAssistantMessage [] "openai-completions" "openai" "mock" "aborted"
     runLoopAux [] [msg] true [] [] [] none none
      = some (((if true then ([] : List AgentEvent) else [.turnStart]) ++
          ([] : List PyMsg).flatMap (fun m => [AgentEvent.messageStart m, AgentEvent.messageEnd m]) ++
          [AgentEvent.messageStart msg, AgentEvent.messageEnd msg]) ++
          [AgentEvent.turnEnd msg [], AgentEvent.agentEnd ((([] : List PyMsg) ++ []) ++ [msg])],
          (([] : List PyMsg) ++ []) ++ [msg]) ∧
    (((if true then ([] : List AgentEvent) else [.turnStart]) ++
        ([] : List PyMsg).flatMap (fun m => [AgentEvent.messageStart m, AgentEvent.messageEnd m]) ++
        [AgentEvent.messageStart msg, AgentEvent.messageEnd msg] ++
        [AgentEvent.turnEnd msg [], AgentEvent.agentEnd ((([] : List PyMsg) ++ []) ++ [msg])]).filter
          isToolExecEvent) = []) :=
  ⟨Or.inr rfl,
   claim4_error_abort_ends_run [] [] true [] [] [] none none
     (mkAssistantMessage [] "openai-completions" "openai" "mock" "aborted") (Or.inr rfl)⟩

/-- A message entry never carries the compaction slot through `scanStep`. -/
theorem scanStep_preserves_compaction (acc : String × Option (String × String) ×
    Option SessionEntry) (i : String) (p : Option String) (m : PyMsg) :
    (scanStep acc (.message i p m)).2.2 = acc.2.2 := by
  simp only [scanStep]
  split <;> rfl

/-- Over a path of message entries, the scan finds no compaction. -/
theorem scanFold_msgs_no_compaction :
    ∀ (l : List SessionEntry)
      (acc : String × Option (String × String) × Option SessionEntry),
    (∀ e ∈ l, ∃ i p m, e = SessionEntry.message i p m) →
    (List.foldl scanStep acc l).2.2 = acc.2.2 := by
  intro l
  induction l with
  | nil => intro acc _; rfl
  | cons e t ih =>
    intro acc h
    obtain ⟨i, p, m, rfl⟩ := h e (by simp)
    rw [List.foldl_cons, ih _ (fun x hx => h x (by simp [hx])),
      scanStep_preserves_compaction]

/-- C8: in a fresh session, appending m1, m2, m3 under fresh ids, branching
back to m2, then appending m4 makes m4's parent m2, gives m2 the children
{m3, m4} (in insertion order), and context reconstruction from leaf m4
yields [m1, m2, m4], from leaf m3 yields [m1, m2, m3]. -/
theorem claim8_session_branch (m1 m2 m3 m4 : PyMsg) (i1 i2 i3 i4 : String)
    (h12 : i1 ≠ i2) (h13 : i1 ≠ i3) (h14 : i1 ≠ i4)
    (h23 : i2 ≠ i3) (h24 : i2 ≠ i4) (h34 : i3 ≠ i4) :
    let s3 := appendMessage (appendMessage (appendMessage {} i1 m1) i2 m2) i3 m3
    let s3b : SessionState := { entries := s3.entries, leafId := some i2 }
    let s4 := appendMessage s3b i4 m4
    branch s3 i2 = .ok s3b ∧
    byId s4.entries i4 = some (.message i4 (some i2) m4) ∧
    getChildren s4 i2 = [.message i3 (some i2) m3, .message i4 (some i2) m4] ∧
    (buildSessionContext s4.entries (some i4)).messages
      = [.message m1, .message m2, .message m4] ∧
    (buildSessionContext s4.entries (some i3)).messages
      = [.message m1, .message m2, .message m3] := by
  have h21 := h12.symm
  have h31 := h13.symm
  have h41 := h14.symm
  have h32 := h23.symm
  have h42 := h24.symm
  have h43 := h34.symm
  set e1 : SessionEntry := .message i1 none m1 with he1
  set e2 : SessionEntry := .message i2 (some i1) m2 with he2
  set e3 : SessionEntry := .message i3 (some i2) m3 with he3
  set e4 : SessionEntry := .message i4 (some i2) m4 with he4
  have hmsgs4 : ∀ e ∈ [e1, e2, e4], ∃ i p m, e = SessionEntry.message i p m := by
    intro e he
    simp only [List.mem_cons, List.not_mem_nil, or_false] at he
    rcases he with rfl | rfl | rfl
    · exact ⟨i1, none, m1, he1⟩
    · exact ⟨i2, some i1, m2, he2⟩
    · exact ⟨i4, some i2, m4, he4⟩
  have hmsgs3 : ∀ e ∈ [e1, e2, e3], ∃ i p m, e = SessionEntry.message i p m := by
    intro e he
    simp only [List.mem_cons, List.not_mem_nil, or_false] at he
    rcases he with rfl | rfl | rfl
    · exact ⟨i1, none, m1, he1⟩
    · exact ⟨i2, some i1, m2, he2⟩
    · exact ⟨i3, some i2, m3, he3⟩
  have hscan4 : (scanPath [e1, e2, e4]).2.2 = none :=
    scanFold_msgs_no_compaction [e1, e2, e4] _ hmsgs4
  have hscan3 : (scanPath [e1, e2, e3]).2.2 = none :=
    scanFold_msgs_no_compaction [e1, e2, e3] _ hmsgs3
  have hby1 : byId [e1, e2, e3, e4] i1 = some e1 := by
    simp [byId, SessionEntry.id, he1, he2, he3, he4, h21, h31, h41]
  have hby2 : byId [e1, e2, e3, e4] i2 = some e2 := by
    simp [byId, SessionEntry.id, he1, he2, he3, he4, h32, h42]
  have hby3 : byId [e1, e2, e3, e4] i3 = some e3 := by
    simp [byId, SessionEntry.id, he1, he2, he3, he4, h43]
  have hby4 : byId [e1, e2, e3, e4] i4 = some e4 := by
    simp [byId, SessionEntry.id, he1, he2, he3, he4]
  have hby2three : byId [e1, e2, e3] i2 = some e2 := by
    simp [byId, SessionEntry.id, he1, he2, he3, h32]
  have w1 : walkPath [e1, e2, e3, e4] 2 (some e1) = [e1] := rfl
  have w2 : walkPath [e1, e2, e3, e4] 3 (some e2) = [e1, e2] := by
    rw [show walkPath [e1, e2, e3, e4] 3 (some e2)
        = walkPath [e1, e2, e3, e4] 2 (byId [e1, e2, e3, e4] i1) ++ [e2] from rfl,
      hby1, w1]
    rfl
  have hpath4 : walkPath [e1, e2, e3, e4] 4 (some e4) = [e1, e2, e4] := by
    rw [show walkPath [e1, e2, e3, e4] 4 (some e4)
        = walkPath [e1, e2, e3, e4] 3 (byId [e1, e2, e3, e4] i2) ++ [e4] from rfl,
      hby2, w2]
    rfl
  have hpath3 : walkPath [e1, e2, e3, e4] 4 (some e3) = [e1, e2, e3] := by
    rw [show walkPath [e1, e2, e3, e4] 4 (some e3)
        = walkPath [e1, e2, e3, e4] 3 (byId [e1, e2, e3, e4] i2) ++ [e3] from rfl,
      hby2, w2]
    rfl
  have hlen : ([e1, e2, e3, e4] : List SessionEntry).length = 4 := rfl
  refine ⟨?_, ?_, ?_, ?_, ?_⟩
  · show branch { entries := [e1, e2, e3], leafId := some i3 } i2
      = .ok { entries := [e1, e2, e3], leafId := some i2 }
    simp [branch, hby2three]
  · exact hby4
  · show List.filter (fun e => decide (e.parentId = some i2)) [e1, e2, e3, e4] = _
    simp [SessionEntry.parentId, he1, he2, he3, he4, h12, h21]
  · show (buildSessionContext [e1, e2, e3, e4] (some i4)).messages = _
    rw [buildSessionContext]
    simp only [Option.bind, hby4, hlen, hpath4, hscan4]
    simp [entryCtxMsgs, he1, he2, he4]
  · show (buildSessionContext [e1, e2, e3, e4] (some i3)).messages = _
    rw [buildSessionContext]
    simp only [Option.bind, hby3, hlen, hpath3, hscan3]
    simp [entryCtxMsgs, he1, he2, he3]

/-- C8 witness: concrete ids `m1`..`m4` and four user messages. -/
theorem claim8_session_branch_witness :
    (("m1" : String) ≠ "m2" ∧ ("m1" : String) ≠ "m3" ∧ ("m1" : String) ≠ "m4" ∧
     ("m2" : String) ≠ "m3" ∧ ("m2" : String) ≠ "m4" ∧ ("m3" : String) ≠ "m4") ∧
    (let u1 := mkUserMessage [mkTextContent "one"]
     let u2 := mkUserMessage [mkTextContent "two"]
     let u3 := mkUserMessage [mkTextContent "three"]
     let u4 := mkUserMessage [mkTextContent "four"]
     let s3 := appendMessage (appendMessage (appendMessage {} "m1" u1) "m2" u2) "m3" u3
     let s3b : SessionState := { entries := s3.entries, leafId := some "m2" }
     let s4 := appendMessage s3b "m4" u4
     branch s3 "m2" = .ok s3b ∧
     byId s4.entries "m4" = some (.message "m4" (some "m2") u4) ∧
     getChildren s4 "m2" = [.message "m3" (some "m2") u3, .message "m4" (some "m2") u4] ∧
     (buildSessionContext s4.entries (some "m4")).messages
       = [.message u1, .message u2, .message u4] ∧
     (buildSessionContext s4.entries (some "m3")).messages
       = [.message u1, .message u2, .message u3]) :=
  ⟨⟨by decide, by decide, by decide, by decide, by decide, by decide⟩,
   claim8_session_branch
     (mkUserMessage [mkTextContent "one"]) (mkUserMessage [mkTextContent "two"])
     (mkUserMessage [mkTextContent "three"]) (mkUserMessage [mkTextContent "four"])
     "m1" "m2" "m3" "m4"
     (by decide) (by decide) (by decide) (by decide) (by decide) (by decide)⟩


/-- Modelled from the claim's words, not from the code: "the largest object
that is a prefix of `J`" that the prefix `p` already covers — keep the
longest initial run of members whose serialization (the object without its
closing brace) fits inside `p`. -/
def specLargestObjPrefixAux (ms : List (List Char × Sjson.Json)) (p : List Char) :
    Nat → Nat
  | 0 => 0
  | i + 1 =>
    if (Sjson.render (Sjson.Json.obj (ms.take (i + 1)))).dropLast <+: p then i + 1
    else specLargestObjPrefixAux ms p i

/-- Modelled from the claim's words, not from the code: on an object, the
largest object prefix of it determined by `p`; other values are untouched. -/
def specLargestObjPrefix (J : Sjson.Json) (p : List Char) : Sjson.Json :=
  match J with
  | .obj ms => .obj (ms.take (specLargestObjPrefixAux ms p ms.length))
  | j => j

/-- The counterexample object `a=1, b=2` and its serialization. -/
def c6obj : Sjson.Json :=
  .obj [(['a'], .num 1), (['b'], .num 2)]

def c6full : List Char :=
  ['{', '"', 'a', '"', ':', '1', ',', '"', 'b', '"', ':', '2', '}']

/-- The first ten characters of the serialization of `c6obj`. -/
def c6prefix : List Char := c6full.take 10

/-- C6 counterexample: on the ten-character prefix of the serialization of
the object `a=1, b=2` the parser returns the empty object, not the claimed
largest object prefix `a=1`. -/
theorem claim6_counterexample :
    c6prefix <+: Sjson.render c6obj ∧
    Sjson.parseStreamingJson c6prefix = Sjson.Json.obj [] ∧
    specLargestObjPrefix c6obj c6prefix
      = Sjson.Json.obj [(['a'], Sjson.Json.num 1)] ∧
    Sjson.parseStreamingJson c6prefix ≠ specLargestObjPrefix c6obj c6prefix := by
  have hr : Sjson.render c6obj = c6full := by
    simp [c6obj, c6full, Sjson.render, Sjson.renderFields, Sjson.renderFieldsTail,
      Sjson.renderStr, Sjson.escapeChar, Sjson.intChars, Sjson.natDigs]
  have hrA : Sjson.render (Sjson.Json.obj [(['a'], Sjson.Json.num 1)])
      = ['{', '"', 'a', '"', ':', '1', '}'] := by
    simp [Sjson.render, Sjson.renderFields, Sjson.renderFieldsTail,
      Sjson.renderStr, Sjson.escapeChar, Sjson.intChars, Sjson.natDigs]
  have hpre : c6prefix <+: Sjson.render c6obj := by rw [hr]; decide
  have hp : Sjson.parseStreamingJson c6prefix = Sjson.Json.obj [] := rfl
  have haux : specLargestObjPrefixAux
      [(['a'], Sjson.Json.num 1), (['b'], Sjson.Json.num 2)] c6prefix 2 = 1 := by
    show (if (Sjson.render (Sjson.Json.obj
            ([(['a'], Sjson.Json.num 1), (['b'], Sjson.Json.num 2)].take 2))).dropLast
            <+: c6prefix then 2
          else specLargestObjPrefixAux
            [(['a'], Sjson.Json.num 1), (['b'], Sjson.Json.num 2)] c6prefix 1) = 1
    rw [show ([(['a'], Sjson.Json.num 1), (['b'], Sjson.Json.num 2)].take 2)
        = [(['a'], Sjson.Json.num 1), (['b'], Sjson.Json.num 2)] from rfl]
    rw [show Sjson.render (Sjson.Json.obj
        [(['a'], Sjson.Json.num 1), (['b'], Sjson.Json.num 2)]) = c6full from hr]
    rw [if_neg (by decide)]
    show (if (Sjson.render (Sjson.Json.obj
            ([(['a'], Sjson.Json.num 1), (['b'], Sjson.Json.num 2)].take 1))).dropLast
            <+: c6prefix then 1
          else specLargestObjPrefixAux
            [(['a'], Sjson.Json.num 1), (['b'], Sjson.Json.num 2)] c6prefix 0) = 1
    rw [show ([(['a'], Sjson.Json.num 1), (['b'], Sjson.Json.num 2)].take 1)
        = [(['a'], Sjson.Json.num 1)] from rfl, hrA]
    rw [if_pos (by decide)]
  have hs : specLargestObjPrefix c6obj c6prefix
      = Sjson.Json.obj [(['a'], Sjson.Json.num 1)] := by
    show Sjson.Json.obj ([(['a'], Sjson.Json.num 1), (['b'], Sjson.Json.num 2)].take
      (specLargestObjPrefixAux
        [(['a'], Sjson.Json.num 1), (['b'], Sjson.Json.num 2)] c6prefix 2))
      = Sjson.Json.obj [(['a'], Sjson.Json.num 1)]
    rw [haux]
    rfl
  refine ⟨hpre, hp, hs, ?_⟩
  rw [hp, hs]
  simp

/-- C6 amended: `_parse_streaming_json` applied to a prefix of the compact
serialization of an object returns the whole object on the full
serialization and the empty object on every strict prefix — never a proper
nonempty sub-object. -/
theorem claim6_amended (ms : List (List Char × Sjson.Json)) (p : List Char)
    (hp : p <+: Sjson.render (Sjson.Json.obj ms)) :
    Sjson.parseStreamingJson p
      = if p = Sjson.render (Sjson.Json.obj ms) then Sjson.Json.obj ms
        else Sjson.Json.obj [] := by
  by_cases h : p = Sjson.render (Sjson.Json.obj ms)
  · rw [if_pos h, h]
    exact Sjson.parseStreamingJson_render_obj ms
  · rw [if_neg h]
    exact Sjson.parseStreamingJson_strict_prefix ms p hp h

/-- C6 amended, witnessed at the counterexample input. -/
theorem claim6_amended_witness :
    c6prefix <+: Sjson.render (Sjson.Json.obj
      [(['a'], Sjson.Json.num 1), (['b'], Sjson.Json.num 2)]) ∧
    Sjson.parseStreamingJson c6prefix
      = if c6prefix = Sjson.render (Sjson.Json.obj
            [(['a'], Sjson.Json.num 1), (['b'], Sjson.Json.num 2)])
        then Sjson.Json.obj [(['a'], Sjson.Json.num 1), (['b'], Sjson.Json.num 2)]
        else Sjson.Json.obj [] := by
  have hr : Sjson.render (Sjson.Json.obj
      [(['a'], Sjson.Json.num 1), (['b'], Sjson.Json.num 2)]) = c6full := by
    simp [c6full, Sjson.render, Sjson.renderFields, Sjson.renderFieldsTail,
      Sjson.renderStr, Sjson.escapeChar, Sjson.intChars, Sjson.natDigs]
  have hpre : c6prefix <+: Sjson.render (Sjson.Json.obj
      [(['a'], Sjson.Json.num 1), (['b'], Sjson.Json.num 2)]) := by
    rw [hr]; decide
  exact ⟨hpre, claim6_amended [(['a'], Sjson.Json.num 1), (['b'], Sjson.Json.num 2)]
    c6prefix hpre⟩

end Pipy
